import Mathlib

/-!
Verification development for the SRA accession-id resolution engine
(`sra_id_converter.py` and `_retry_response` from `srx_to_gsm_standalone.py`).

The Python code is embedded shallowly:
* a Python dict with string keys and two-field record values is an
  association list `Dict` with insertion semantics `dinsert` (replace the
  first matching key in place, append otherwise);
* the per-id resolution functions `process_srp_id` / `process_erp_id`
  perform network I/O, so they are modelled as oracles
  `Nat → String → Outcome` giving, for each retry round, either the record
  returned by a call or an escaping exception; each oracle invocation is
  the only place outbound HTTP happens in the source, and is recorded as a
  `netCall` event;
* `time.sleep`, progress callbacks and the unknown-prefix warning are
  recorded as events so that temporal claims are statable;
* Python's `set(ids)` iteration order is unspecified; the model fixes the
  first-occurrence order (`dedupFirst`).  No claim below depends on the
  particular order chosen.
-/

/-- Record with the two fields `bioproject_id` and `geo_id`, the value type of
every result dict in `sra_id_converter.py`. -/
structure Res where
  bioproject_id : String
  geo_id : String
deriving DecidableEq, Repr

/-- The all-empty record `{'bioproject_id': '', 'geo_id': ''}`. -/
def emptyRes : Res := ⟨"", ""⟩

/-- Result of one invocation of a per-id resolution function: either the
returned record, or an exception escaping the call (caught at line 255 of
`sra_id_converter.py`). -/
inductive Outcome where
  | ok (r : Res)
  | exn
deriving DecidableEq, Repr

/-- Python dict from accession strings to records, as an association list in
insertion order with unique keys maintained by `dinsert`. -/
abbrev Dict := List (String × Res)

/-- Lookup, `d.get(k)` / `d[k]`. -/
def dget? : Dict → String → Option Res
  | [], _ => none
  | (k', v) :: rest, k => if k' = k then some v else dget? rest k

/-- Assignment `d[k] = v`: replace the first binding of `k` in place, append a
new binding otherwise (Python dicts keep the original key position). -/
def dinsert : Dict → String → Res → Dict
  | [], k, v => [(k, v)]
  | (k', v') :: rest, k, v =>
    if k' = k then (k, v) :: rest else (k', v') :: dinsert rest k v

/-- The keys of a dict, in insertion order. -/
def dkeys (d : Dict) : List String := d.map Prod.fst

/-- Python `d.update(d2)`: fold assignment over the entries of `d2`. -/
def dupdate (d d2 : Dict) : Dict := d2.foldl (fun acc p => dinsert acc p.1 p.2) d

/-- Model of `list(set(l))`, fixing first-occurrence order. -/
def dedupFirst : List String → List String
  | [] => []
  | x :: xs => x :: (dedupFirst xs).filter (fun y => y ≠ x)

/-- Model of Python `s.startswith(p)` on the character sequences. -/
def charPrefix : List Char → List Char → Bool
  | [], _ => true
  | _ :: _, [] => false
  | a :: as, b :: bs => a = b && charPrefix as bs

/-- Model of Python `s.startswith(p)`. -/
def startsWith (s p : String) : Bool := charPrefix p.data s.data

/-- Events observable during a run: an invocation of the per-id resolution
function (tagged with the retry round), the retry sleep at line 234, the
inter-batch sleep at line 269, a progress callback invocation, and the
unknown-format warning at line 173 of `sra_id_converter.py`. -/
inductive Event where
  | netCall (round : Nat) (id : String)
  | sleepRetry (d : Rat)
  | sleepBatch (d : Rat)
  | progress (n : Nat)
  | warnUnknown (ids : List String)
deriving DecidableEq, Repr

/-- Success test at line 251:
`result.get('bioproject_id') or result.get('geo_id')` — at least one field
non-empty; an escaping exception counts as a failure (line 255-257). -/
def successful : Outcome → Bool
  | .ok r => decide (r.bioproject_id ≠ "" ∨ r.geo_id ≠ "")
  | .exn => false

/-- The record carried by an `ok` outcome (unused for `exn`). -/
def resultOf : Outcome → Res
  | .ok r => r
  | .exn => emptyRes

/-- Slicing `current_ids[i:i+batch_size]` for `i in range(0, len, batch_size)`
(line 239-240); auxiliary recursion carrying the current chunk reversed and its
remaining capacity. -/
def chunksAux (n : Nat) : List String → List String → Nat → List (List String)
  | [], acc, _ => if acc.isEmpty then [] else [acc.reverse]
  | x :: xs, acc, 0 => acc.reverse :: chunksAux n xs [x] (n - 1)
  | x :: xs, acc, k + 1 => chunksAux n xs (x :: acc) k

/-- Slicing a list into consecutive batches of size `n` (`n ≥ 1`, as in the
source where `batch_size = 0` would raise in `range`). -/
def chunks (n : Nat) (l : List String) : List (List String) :=
  match l with
  | [] => []
  | x :: xs => chunksAux n xs [x] (n - 1)

/-- Scheduler state threaded through `process_in_batches`: the `results` dict,
the cumulative `total_processed` counter, and the event trace so far. -/
structure St where
  results : Dict
  totalProcessed : Nat
  events : List Event
deriving Repr

/-- One batch body, lines 243-257: invoke the resolution function on each id
of the batch; successes (line 251) go into `batch_results`, failures and
exceptions into `batch_failed_ids`. -/
def batchOutcome (pf : Nat → String → Outcome) (round : Nat) :
    List String → Dict × List String
  | [] => ([], [])
  | sid :: rest =>
    let p := batchOutcome pf round rest
    if successful (pf round sid) then
      ((sid, resultOf (pf round sid)) :: p.1, p.2)
    else
      (p.1, sid :: p.2)

/-- One retry round over its batches, lines 239-269: per batch, merge the
successes into `results`, bump `total_processed` by the number of ids of the
batch that did not fail, invoke the progress callback when that number is
positive, and sleep `delay_between_batches` when more batches remain.  Returns
the updated state and the failures of the round, in order. -/
def runRound (pf : Nat → String → Outcome) (round : Nat) (delayBetween : Rat)
    (hasCb : Bool) : List (List String) → St → St × List String
  | [], st => (st, [])
  | batch :: more, st =>
    let p := batchOutcome pf round batch
    let bp := batch.length - p.2.length
    let tp := st.totalProcessed + bp
    let ev1 := st.events ++ batch.map (Event.netCall round)
    let ev2 := if hasCb ∧ 0 < bp then ev1 ++ [Event.progress tp] else ev1
    let ev3 := if more.isEmpty then ev2 else ev2 ++ [Event.sleepBatch delayBetween]
    let q := runRound pf round delayBetween hasCb more ⟨dupdate st.results p.1, tp, ev3⟩
    (q.1, p.2 ++ q.2)

/-- The `while failed_ids and retry_count <= max_retries` loop of
`process_in_batches` (lines 231-272), driven by the structurally decreasing
fuel `max_retries + 1 - retry_count`: sleep `retry_delay` before every retry
round (`retry_count > 0`), run the round over the batches of the current
failure set, and continue with the new failure set.  Returns the final state
and the failure set left when the loop exits. -/
def processLoop (pf : Nat → String → Outcome) (batchSize : Nat)
    (delayBetween : Rat) (retryDelay : Rat) (hasCb : Bool) :
    Nat → Nat → List String → St → St × List String
  | 0, _, failedIds, st => (st, failedIds)
  | fuel + 1, retryCount, failedIds, st =>
    if failedIds.isEmpty then (st, failedIds)
    else
      let st0 : St :=
        if 0 < retryCount then
          ⟨st.results, st.totalProcessed, st.events ++ [Event.sleepRetry retryDelay]⟩
        else st
      let q := runRound pf retryCount delayBetween hasCb (chunks batchSize failedIds) st0
      processLoop pf batchSize delayBetween retryDelay hasCb fuel (retryCount + 1) q.2 q.1

/-- Embedding of `process_in_batches` (lines 205-280): deduplicate the input
(`failed_ids = set(ids)`), run the bounded retry loop, then give every id
still failed an explicit empty record (lines 274-278).  `maxWorkers` only
sizes the thread pool in the source and does not affect the result. -/
def process_in_batches (pf : Nat → String → Outcome) (ids : List String)
    (batchSize maxWorkers : Nat) (delayBetweenBatches : Rat) (maxRetries : Nat)
    (retryDelay : Rat) (hasCb : Bool) : St :=
  let p := processLoop pf batchSize delayBetweenBatches retryDelay hasCb
    (maxRetries + 1) 0 (dedupFirst ids) ⟨[], 0, []⟩
  ⟨p.2.foldl (fun d sid => dinsert d sid emptyRes) p.1.results,
    p.1.totalProcessed, p.1.events⟩

/-- The id-classification of lines 153-156: the known-mappings table is
consulted first, then — only when a cache file was supplied — the loaded
cache. -/
def hitVal (known : Dict) (cache : Option Dict) (sid : String) : Option Res :=
  match dget? known sid with
  | some r => some r
  | none =>
    match cache with
    | some c => dget? c sid
    | none => none

/-- The loop of lines 151-158: split the unique ids into the dict of
known-mapping/cache hits and the list of remaining ids, preserving order. -/
def splitCached (known : Dict) (cache : Option Dict) :
    List String → Dict × List String
  | [] => ([], [])
  | sid :: rest =>
    let p := splitCached known cache rest
    match hitVal known cache sid with
    | some r => ((sid, r) :: p.1, p.2)
    | none => (p.1, sid :: p.2)

/-- The ids of the input list not served by known mappings or the cache
(lines 151-158). -/
def remainingIds (known : Dict) (cache : Option Dict) (sra_ids : List String) :
    List String :=
  (splitCached known cache (dedupFirst sra_ids)).2

/-- `srp_ids` of line 168. -/
def srpList (known : Dict) (cache : Option Dict) (sra_ids : List String) :
    List String :=
  (remainingIds known cache sra_ids).filter (fun s => startsWith s "SRP")

/-- `erp_ids` of line 169. -/
def erpList (known : Dict) (cache : Option Dict) (sra_ids : List String) :
    List String :=
  (remainingIds known cache sra_ids).filter (fun s => startsWith s "ERP")

/-- `other_ids` of line 170: unrecognized prefixes. -/
def otherList (known : Dict) (cache : Option Dict) (sra_ids : List String) :
    List String :=
  (remainingIds known cache sra_ids).filter
    (fun s => !(startsWith s "SRP" || startsWith s "ERP"))

/-- Lines 131-189 of `convert_sra_ids`, `results` part: the dict of
known-mapping/cache hits, merged (`results.update(batch_results)`, lines 181
and 189) with the outcome of the SRP batch run and then of the ERP batch run,
each performed only when its id list is non-empty. -/
def convertResults (known : Dict) (srpFunc erpFunc : Nat → String → Outcome)
    (sra_ids : List String) (batchSize maxWorkers : Nat)
    (delayBetweenBatches : Rat) (cache : Option Dict) (maxRetries : Nat)
    (retryDelay : Rat) (hasCb : Bool) : Dict :=
  let p1 := (splitCached known cache (dedupFirst sra_ids)).1
  let srpIds := srpList known cache sra_ids
  let erpIds := erpList known cache sra_ids
  let r1 :=
    if srpIds.isEmpty then p1
    else dupdate p1 (process_in_batches srpFunc srpIds batchSize maxWorkers
      delayBetweenBatches maxRetries retryDelay hasCb).results
  if erpIds.isEmpty then r1
  else dupdate r1 (process_in_batches erpFunc erpIds batchSize maxWorkers
    delayBetweenBatches maxRetries retryDelay hasCb).results

/-- Lines 131-189 of `convert_sra_ids`, event-trace part: the progress
callback after the cache/known-mapping short-circuit (lines 160-163), the
unknown-format warning (lines 172-173), then the events of the SRP batch run
and of the ERP batch run. -/
def convertEvents (known : Dict) (srpFunc erpFunc : Nat → String → Outcome)
    (sra_ids : List String) (batchSize maxWorkers : Nat)
    (delayBetweenBatches : Rat) (cache : Option Dict) (maxRetries : Nat)
    (retryDelay : Rat) (hasCb : Bool) : List Event :=
  let processedCount :=
    (dedupFirst sra_ids).length - (remainingIds known cache sra_ids).length
  let ev0 : List Event :=
    if hasCb ∧ 0 < processedCount then [Event.progress processedCount] else []
  let otherIds := otherList known cache sra_ids
  let ev1 := ev0 ++ (if otherIds.isEmpty then [] else [Event.warnUnknown otherIds])
  let srpIds := srpList known cache sra_ids
  let erpIds := erpList known cache sra_ids
  let ev2 :=
    if srpIds.isEmpty then ev1
    else ev1 ++ (process_in_batches srpFunc srpIds batchSize maxWorkers
      delayBetweenBatches maxRetries retryDelay hasCb).events
  if erpIds.isEmpty then ev2
  else ev2 ++ (process_in_batches erpFunc erpIds batchSize maxWorkers
    delayBetweenBatches maxRetries retryDelay hasCb).events

/-- The observable outcome of one `convert_sra_ids` call: the returned
mapping, the cache file contents written at the end (when a cache file was
supplied), and the event trace. -/
structure ConvOut where
  output : Dict
  writtenCache : Option Dict
  events : List Event
deriving Repr

/-- Embedding of `convert_sra_ids` (lines 111-203): run the core, write
`cache.update(results)` back to the cache file when one was supplied
(lines 191-200), and return one entry per original input id, backfilled with
the empty record (line 203).  `known` is the module global `KNOWN_MAPPINGS`;
`srpFunc`/`erpFunc` are the oracles for `process_srp_id`/`process_erp_id`;
`cache` is `none` when no `cache_file` is passed, and otherwise the dict
loaded from the file (empty for a missing or corrupt file). -/
def convert_sra_ids (known : Dict) (srpFunc erpFunc : Nat → String → Outcome)
    (sra_ids : List String) (batchSize maxWorkers : Nat)
    (delayBetweenBatches : Rat) (cache : Option Dict) (maxRetries : Nat)
    (retryDelay : Rat) (hasCb : Bool) : ConvOut :=
  let res := convertResults known srpFunc erpFunc sra_ids batchSize maxWorkers
    delayBetweenBatches cache maxRetries retryDelay hasCb
  ⟨sra_ids.foldl (fun d sid => dinsert d sid ((dget? res sid).getD emptyRes)) [],
    cache.map (fun c => dupdate c res),
    convertEvents known srpFunc erpFunc sra_ids batchSize maxWorkers
      delayBetweenBatches cache maxRetries retryDelay hasCb⟩

/-- The failure-set iteration of the retry loop: `iterFail pf rc F k` is the
set of ids entering the round numbered `rc + k` when the loop is entered at
round `rc` with failure set `F` — each step keeps the ids whose outcome in
that round is a failure. -/
def iterFail (pf : Nat → String → Outcome) : Nat → List String → Nat → List String
  | _, F, 0 => F
  | rc, F, k + 1 =>
    iterFail pf (rc + 1) (F.filter (fun sid => !(successful (pf rc sid)))) k

/-- Projection of the event trace to the values passed to the progress
callback, in order. -/
def progressValues (evs : List Event) : List Nat :=
  evs.filterMap (fun e =>
    match e with
    | .progress n => some n
    | _ => none)

/-- Boolean test that a list of naturals is monotonically non-decreasing. -/
def nondecreasing : List Nat → Bool
  | [] => true
  | [_] => true
  | a :: b :: l => decide (a ≤ b) && nondecreasing (b :: l)

/-- Test selecting the resolution-function invocations of one id from an
event trace. -/
def isCallFor (sid : String) : Event → Bool
  | .netCall _ s => decide (s = sid)
  | _ => false

/-- Success test of one attempt of `_retry_response`
(`srx_to_gsm_standalone.py` lines 26-31): the body decodes as JSON (`some`),
contains `key` and does not contain `"error"`.  A decoded object is modelled
by its key list. -/
def attemptOK (key : String) (o : Option (List String)) : Bool :=
  match o with
  | some ks => ks.contains key && !ks.contains "error"
  | none => false

/-- Termination of `_retry_response`: either a decoded response is returned,
or `sys.exit(1)` (line 34) terminates the whole process. -/
inductive RetryResult where
  | response (keys : List String)
  | exitFatal
deriving DecidableEq, Repr

/-- The `for i in range(max_retries)` loop of `_retry_response` (lines 24-32):
before attempt `i` sleep `2 ** i` seconds, then request; return the decoded
response on success, otherwise continue.  Returns the sleep trace and either
the response, or `exitFatal` modelling the `sys.exit(1)` at line 34 that
terminates the whole process after the attempts are exhausted. -/
def retryLoop (key : String) (oracle : Nat → Option (List String)) :
    Nat → Nat → List Rat × RetryResult
  | 0, _ => ([], .exitFatal)
  | n + 1, i =>
    let slp : Rat := 2 ^ i
    if attemptOK key (oracle i) then
      ([slp], .response ((oracle i).getD []))
    else
      let p := retryLoop key oracle n (i + 1)
      (slp :: p.1, p.2)

/-- Embedding of `_retry_response` (`srx_to_gsm_standalone.py` lines 22-34):
`oracle i` is the decoded body of the request of attempt `i` (`none` for a
`JSONDecodeError`). -/
def retry_response (key : String) (oracle : Nat → Option (List String))
    (maxRetries : Nat) : List Rat × RetryResult :=
  retryLoop key oracle maxRetries 0

/-! ### Dictionary lemmas -/

theorem dget?_dinsert_self (d : Dict) (k : String) (v : Res) :
    dget? (dinsert d k v) k = some v := by
  induction d with
  | nil => simp [dinsert, dget?]
  | cons p rest ih =>
    by_cases h : p.1 = k
    · simp [dinsert, dget?, h]
    · simp [dinsert, dget?, h, ih]

theorem dget?_dinsert_ne (d : Dict) (k k' : String) (v : Res) (h : k' ≠ k) :
    dget? (dinsert d k v) k' = dget? d k' := by
  induction d with
  | nil =>
    simp [dinsert, dget?, Ne.symm h]
  | cons p rest ih =>
    cases p with
    | mk a b =>
      by_cases hp : a = k
      · subst hp
        simp [dinsert, dget?, Ne.symm h]
      · simp [dinsert, dget?, hp, ih]

theorem mem_dkeys_iff_isSome (d : Dict) (k : String) :
    k ∈ dkeys d ↔ (dget? d k).isSome := by
  induction d with
  | nil => simp [dkeys, dget?]
  | cons p rest ih =>
    cases p with
    | mk a b =>
      by_cases h : a = k
      · simp [dkeys, dget?, h]
      · simp only [dkeys, List.map_cons, List.mem_cons, dget?, if_neg h]
        constructor
        · intro hc
          rcases hc with hc | hc
          · exact absurd hc.symm h
          · exact ih.mp hc
        · intro hc
          exact Or.inr (ih.mpr hc)

theorem dget?_eq_none_iff (d : Dict) (k : String) :
    dget? d k = none ↔ k ∉ dkeys d := by
  rw [mem_dkeys_iff_isSome]
  cases h : dget? d k <;> simp [h]

theorem mem_dkeys_dinsert (d : Dict) (k a : String) (v : Res) :
    a ∈ dkeys (dinsert d k v) ↔ a ∈ dkeys d ∨ a = k := by
  induction d with
  | nil => simp [dinsert, dkeys, eq_comm]
  | cons p rest ih =>
    cases p with
    | mk b c =>
      by_cases hp : b = k
      · subst hp
        simp only [dkeys] at *
        simp [dinsert]
        tauto
      · have ih2 : a ∈ dkeys (dinsert rest k v) ↔ a ∈ dkeys rest ∨ a = k := ih
        simp only [dkeys] at *
        simp [dinsert, hp, ih2]
        tauto

theorem nodup_dkeys_dinsert (d : Dict) (k : String) (v : Res)
    (h : (dkeys d).Nodup) : (dkeys (dinsert d k v)).Nodup := by
  induction d with
  | nil => simp [dinsert, dkeys]
  | cons p rest ih =>
    cases p with
    | mk b c =>
      simp only [dkeys, List.map_cons, List.nodup_cons] at h
      by_cases hp : b = k
      · subst hp
        have hsimp : dinsert ((b, c) :: rest) b v = (b, v) :: rest := by
          simp [dinsert]
        rw [hsimp]
        simpa [dkeys] using h
      · have hsimp : dinsert ((b, c) :: rest) k v = (b, c) :: dinsert rest k v := by
          simp [dinsert, hp]
        rw [hsimp]
        simp only [dkeys, List.map_cons, List.nodup_cons]
        refine ⟨?_, ih h.2⟩
        intro hmem
        have hmem2 : b ∈ dkeys (dinsert rest k v) := hmem
        rw [mem_dkeys_dinsert] at hmem2
        rcases hmem2 with hmem2 | hmem2
        · exact h.1 hmem2
        · exact hp hmem2

theorem dget?_dupdate_of_none (d d2 : Dict) (k : String)
    (h : dget? d2 k = none) : dget? (dupdate d d2) k = dget? d k := by
  induction d2 generalizing d with
  | nil => simp [dupdate]
  | cons p rest ih =>
    cases p with
    | mk a b =>
      simp only [dget?] at h
      by_cases ha : a = k
      · simp [ha] at h
      · rw [if_neg ha] at h
        show dget? (dupdate (dinsert d a b) rest) k = dget? d k
        rw [ih (dinsert d a b) h, dget?_dinsert_ne _ _ _ _ (fun hh => ha hh.symm)]

theorem dget?_dupdate_of_some (d d2 : Dict) (k : String) (v : Res)
    (hnd : (dkeys d2).Nodup) (h : dget? d2 k = some v) :
    dget? (dupdate d d2) k = some v := by
  induction d2 generalizing d with
  | nil => simp [dget?] at h
  | cons p rest ih =>
    cases p with
    | mk a b =>
      simp only [dkeys, List.map_cons, List.nodup_cons] at hnd
      simp only [dget?] at h
      by_cases ha : a = k
      · rw [if_pos ha] at h
        cases h
        subst ha
        show dget? (dupdate (dinsert d a v) rest) a = some v
        have hnone : dget? rest a = none := by
          rw [dget?_eq_none_iff]
          exact hnd.1
        rw [dget?_dupdate_of_none _ _ _ hnone, dget?_dinsert_self]
      · rw [if_neg ha] at h
        show dget? (dupdate (dinsert d a b) rest) k = some v
        exact ih _ hnd.2 h

theorem nodup_dkeys_dupdate (d d2 : Dict) (h : (dkeys d).Nodup) :
    (dkeys (dupdate d d2)).Nodup := by
  induction d2 generalizing d with
  | nil => simpa [dupdate] using h
  | cons p rest ih =>
    show (dkeys (dupdate (dinsert d p.1 p.2) rest)).Nodup
    exact ih _ (nodup_dkeys_dinsert _ _ _ h)

/-- Lookup in a dict built by folding assignments `d[s] = v s` over a list:
each listed key holds its (key-determined) value, others are untouched. -/
theorem foldl_dinsert_get (v : String → Res) (l : List String) (d : Dict)
    (k : String) :
    dget? (l.foldl (fun acc s => dinsert acc s (v s)) d) k =
      if k ∈ l then some (v k) else dget? d k := by
  induction l generalizing d with
  | nil => simp
  | cons x xs ih =>
    show dget? (xs.foldl (fun acc s => dinsert acc s (v s)) (dinsert d x (v x))) k = _
    rw [ih]
    by_cases hx : k ∈ xs
    · simp [hx, List.mem_cons]
    · by_cases hk : k = x
      · subst hk
        simp [hx, dget?_dinsert_self]
      · simp [hx, hk, dget?_dinsert_ne _ _ _ _ hk]

theorem foldl_dinsert_nodup (v : String → Res) (l : List String) (d : Dict)
    (h : (dkeys d).Nodup) :
    (dkeys (l.foldl (fun acc s => dinsert acc s (v s)) d)).Nodup := by
  induction l generalizing d with
  | nil => simpa using h
  | cons x xs ih =>
    exact ih _ (nodup_dkeys_dinsert _ _ _ h)

theorem foldl_dinsert_congr (v w : String → Res) (l : List String) (d : Dict)
    (h : ∀ s ∈ l, v s = w s) :
    l.foldl (fun acc s => dinsert acc s (v s)) d =
      l.foldl (fun acc s => dinsert acc s (w s)) d := by
  induction l generalizing d with
  | nil => rfl
  | cons x xs ih =>
    show xs.foldl (fun acc s => dinsert acc s (v s)) (dinsert d x (v x)) =
      xs.foldl (fun acc s => dinsert acc s (w s)) (dinsert d x (w x))
    rw [h x (by simp)]
    exact ih _ (fun s hs => h s (by simp [hs]))

/-! ### Deduplication and chunking -/

theorem mem_dedupFirst (l : List String) (a : String) :
    a ∈ dedupFirst l ↔ a ∈ l := by
  induction l with
  | nil => simp [dedupFirst]
  | cons x xs ih =>
    simp only [dedupFirst, List.mem_cons, List.mem_filter]
    by_cases ha : a = x
    · simp [ha]
    · simp [ha, ih]

theorem nodup_dedupFirst (l : List String) : (dedupFirst l).Nodup := by
  induction l with
  | nil => simp [dedupFirst]
  | cons x xs ih =>
    simp only [dedupFirst, List.nodup_cons]
    constructor
    · intro hmem
      exact (by simpa using (List.mem_filter.mp hmem).2 : ¬ x = x) rfl
    · exact ih.filter _

theorem chunksAux_flatten (n : Nat) (l acc : List String) (k : Nat) :
    (chunksAux n l acc k).flatten = acc.reverse ++ l := by
  induction l generalizing acc k with
  | nil =>
    by_cases h : acc.isEmpty
    · have : acc = [] := by cases acc <;> simp_all
      simp [chunksAux, h, this]
    · simp [chunksAux, h]
  | cons x xs ih =>
    cases k with
    | zero => simp [chunksAux, ih]
    | succ k => simp [chunksAux, ih]

theorem chunks_flatten (n : Nat) (l : List String) : (chunks n l).flatten = l := by
  cases l with
  | nil => simp [chunks]
  | cons x xs => simp [chunks, chunksAux_flatten]

/-! ### Batch and round characterization -/

theorem batchOutcome_snd (pf : Nat → String → Outcome) (round : Nat)
    (batch : List String) :
    (batchOutcome pf round batch).2 =
      batch.filter (fun sid => !(successful (pf round sid))) := by
  induction batch with
  | nil => simp [batchOutcome]
  | cons sid rest ih =>
    by_cases h : successful (pf round sid)
    · simp [batchOutcome, h, ih]
    · simp [batchOutcome, h, ih]

theorem batchOutcome_fst_get (pf : Nat → String → Outcome) (round : Nat)
    (batch : List String) (k : String) :
    dget? (batchOutcome pf round batch).1 k =
      if k ∈ batch ∧ successful (pf round k) = true then
        some (resultOf (pf round k))
      else none := by
  induction batch with
  | nil => simp [batchOutcome, dget?]
  | cons sid rest ih =>
    by_cases h : successful (pf round sid)
    · by_cases hk : sid = k
      · subst hk
        simp [batchOutcome, h, dget?]
      · have hks : ¬ k = sid := fun hh => hk hh.symm
        simp only [batchOutcome, h, if_pos, dget?]
        rw [if_neg hk, ih]
        simp [hks]
    · by_cases hk : sid = k
      · subst hk
        simp only [batchOutcome, h]
        rw [if_neg (by simp [h]), ih]
        by_cases hr : sid ∈ rest
        · simp [hr, h]
        · simp [hr, h]
      · have hks : ¬ k = sid := fun hh => hk hh.symm
        simp only [batchOutcome, h]
        rw [if_neg (by simp [h]), ih]
        simp [hks]

theorem batchOutcome_fst_keys (pf : Nat → String → Outcome) (round : Nat)
    (batch : List String) :
    dkeys (batchOutcome pf round batch).1 =
      batch.filter (fun sid => successful (pf round sid)) := by
  induction batch with
  | nil => simp [batchOutcome, dkeys]
  | cons sid rest ih =>
    by_cases h : successful (pf round sid)
    · simp [batchOutcome, h, dkeys] at *
      exact ih
    · simp [batchOutcome, h, dkeys] at *
      exact ih

theorem runRound_snd (pf : Nat → String → Outcome) (round : Nat)
    (delayBetween : Rat) (hasCb : Bool) (batches : List (List String)) (st : St) :
    (runRound pf round delayBetween hasCb batches st).2 =
      batches.flatten.filter (fun sid => !(successful (pf round sid))) := by
  induction batches generalizing st with
  | nil => simp [runRound]
  | cons batch more ih =>
    simp only [runRound]
    rw [ih, batchOutcome_snd, List.flatten_cons, List.filter_append]

theorem runRound_events_append (pf : Nat → String → Outcome) (round : Nat)
    (delayBetween : Rat) (hasCb : Bool) (batches : List (List String)) (st : St) :
    ∃ t, (runRound pf round delayBetween hasCb batches st).1.events =
      st.events ++ t := by
  induction batches generalizing st with
  | nil => exact ⟨[], by simp [runRound]⟩
  | cons batch more ih =>
    simp only [runRound]
    have hext : ∀ st2 : St, (∃ u, st2.events = st.events ++ u) →
        ∃ t, (runRound pf round delayBetween hasCb more st2).1.events =
          st.events ++ t := by
      intro st2 hu
      obtain ⟨u, hu⟩ := hu
      obtain ⟨t, ht⟩ := ih st2
      exact ⟨u ++ t, by rw [ht, hu, List.append_assoc]⟩
    apply hext
    split <;> split <;>
      · simp only [List.append_eq, List.append_assoc]
        exact ⟨_, rfl⟩

theorem runRound_events_netCall (pf : Nat → String → Outcome) (round : Nat)
    (delayBetween : Rat) (hasCb : Bool) (batches : List (List String)) (st : St)
    (r : Nat) (sid : String) :
    Event.netCall r sid ∈ (runRound pf round delayBetween hasCb batches st).1.events ↔
      Event.netCall r sid ∈ st.events ∨ (r = round ∧ sid ∈ batches.flatten) := by
  induction batches generalizing st with
  | nil => simp [runRound]
  | cons batch more ih =>
    simp only [runRound]
    rw [ih]
    have hmap : Event.netCall r sid ∈ batch.map (Event.netCall round) ↔
        (r = round ∧ sid ∈ batch) := by
      simp only [List.mem_map]
      constructor
      · rintro ⟨a, ha, heq⟩
        cases heq
        exact ⟨rfl, ha⟩
      · rintro ⟨hr, ha⟩
        exact ⟨sid, ha, by rw [hr]⟩
    have hprog : ∀ n : Nat, Event.netCall r sid ∈ [Event.progress n] ↔ False := by
      simp
    have hsleep : Event.netCall r sid ∈ [Event.sleepBatch delayBetween] ↔ False := by
      simp
    split_ifs <;>
      · simp only [List.append_eq, List.mem_append, hmap, hprog, hsleep,
          List.flatten_cons, or_false]
        tauto

theorem runRound_events_sleepRetry (pf : Nat → String → Outcome) (round : Nat)
    (delayBetween : Rat) (hasCb : Bool) (batches : List (List String)) (st : St)
    (d : Rat) :
    Event.sleepRetry d ∈ (runRound pf round delayBetween hasCb batches st).1.events ↔
      Event.sleepRetry d ∈ st.events := by
  induction batches generalizing st with
  | nil => simp [runRound]
  | cons batch more ih =>
    simp only [runRound]
    rw [ih]
    have hmap : Event.sleepRetry d ∈ batch.map (Event.netCall round) ↔ False := by
      simp
    split_ifs <;>
      · simp only [List.append_eq, List.mem_append, hmap]
        simp

theorem runRound_results_preserved (pf : Nat → String → Outcome) (round : Nat)
    (delayBetween : Rat) (hasCb : Bool) (batches : List (List String)) (st : St)
    (sid : String)
    (h : sid ∈ batches.flatten → successful (pf round sid) = false) :
    dget? (runRound pf round delayBetween hasCb batches st).1.results sid =
      dget? st.results sid := by
  induction batches generalizing st with
  | nil => simp [runRound]
  | cons batch more ih =>
    simp only [runRound]
    rw [ih]
    · have hnone : dget? (batchOutcome pf round batch).1 sid = none := by
        rw [batchOutcome_fst_get]
        by_cases hmem : sid ∈ batch
        · simp [hmem, h (by simp [hmem])]
        · simp [hmem]
      exact dget?_dupdate_of_none _ _ _ hnone
    · intro hmem
      exact h (by simp [hmem])

theorem runRound_results_get_success (pf : Nat → String → Outcome) (round : Nat)
    (delayBetween : Rat) (hasCb : Bool) (batches : List (List String)) (st : St)
    (sid : String) (hnd : ∀ b ∈ batches, b.Nodup)
    (hmem : sid ∈ batches.flatten) (hs : successful (pf round sid) = true) :
    dget? (runRound pf round delayBetween hasCb batches st).1.results sid =
      some (resultOf (pf round sid)) := by
  induction batches generalizing st with
  | nil => simp at hmem
  | cons batch more ih =>
    simp only [runRound]
    rw [List.flatten_cons, List.mem_append] at hmem
    by_cases hm : sid ∈ more.flatten
    · exact ih _ (fun b hb => hnd b (by simp [hb])) hm
    · rcases hmem with hmem | hmem
      · rw [runRound_results_preserved]
        · apply dget?_dupdate_of_some
          · rw [batchOutcome_fst_keys]
            exact (hnd batch (by simp)).filter _
          · rw [batchOutcome_fst_get]
            simp [hmem, hs]
        · intro hc
          exact absurd hc hm
      · exact absurd hmem hm

theorem runRound_results_nodup (pf : Nat → String → Outcome) (round : Nat)
    (delayBetween : Rat) (hasCb : Bool) (batches : List (List String)) (st : St)
    (h : (dkeys st.results).Nodup) :
    (dkeys (runRound pf round delayBetween hasCb batches st).1.results).Nodup := by
  induction batches generalizing st with
  | nil => simpa [runRound] using h
  | cons batch more ih =>
    simp only [runRound]
    exact ih _ (nodup_dkeys_dupdate _ _ h)

theorem runRound_tp_mono (pf : Nat → String → Outcome) (round : Nat)
    (delayBetween : Rat) (hasCb : Bool) (batches : List (List String)) (st : St) :
    st.totalProcessed ≤
      (runRound pf round delayBetween hasCb batches st).1.totalProcessed := by
  induction batches generalizing st with
  | nil => simp [runRound]
  | cons batch more ih =>
    simp only [runRound]
    have key : ∀ st2 : St,
        st2.totalProcessed =
          st.totalProcessed + (batch.length - (batchOutcome pf round batch).2.length) →
        st.totalProcessed ≤
          (runRound pf round delayBetween hasCb more st2).1.totalProcessed := by
      intro st2 h2
      calc st.totalProcessed ≤ st2.totalProcessed := by
            rw [h2]
            exact Nat.le_add_right _ _
        _ ≤ _ := ih st2
    exact key _ rfl

theorem progressValues_append (a b : List Event) :
    progressValues (a ++ b) = progressValues a ++ progressValues b := by
  simp [progressValues, List.filterMap_append]

theorem progressValues_netCalls (batch : List String) (round : Nat) :
    progressValues (batch.map (Event.netCall round)) = [] := by
  induction batch with
  | nil => simp [progressValues]
  | cons x xs ih => simpa [progressValues, List.filterMap_cons] using ih

theorem progressValues_progress_one (n : Nat) :
    progressValues [Event.progress n] = [n] := rfl

theorem progressValues_sleepBatch_one (d : Rat) :
    progressValues [Event.sleepBatch d] = [] := rfl

theorem progressValues_sleepRetry_one (d : Rat) :
    progressValues [Event.sleepRetry d] = [] := rfl

theorem nondecreasing_append_last (l : List Nat) (x : Nat)
    (h : nondecreasing l = true) (hb : ∀ n ∈ l, n ≤ x) :
    nondecreasing (l ++ [x]) = true := by
  induction l with
  | nil => simp [nondecreasing]
  | cons a t ih =>
    cases t with
    | nil =>
      have ha := hb a (by simp)
      simp [nondecreasing, ha]
    | cons b t2 =>
      simp only [nondecreasing, Bool.and_eq_true, decide_eq_true_eq] at h
      have ih2 := ih h.2 (fun n hn => hb n (by simp [List.mem_cons] at hn ⊢; tauto))
      simp only [List.cons_append, nondecreasing, Bool.and_eq_true, decide_eq_true_eq]
      exact ⟨h.1, by simpa using ih2⟩

/-- Invariant carried by the scheduler state: the progress values reported so
far are non-decreasing and all bounded by the current `total_processed`. -/
def progOK (st : St) : Prop :=
  nondecreasing (progressValues st.events) = true ∧
    ∀ n ∈ progressValues st.events, n ≤ st.totalProcessed

theorem runRound_progOK (pf : Nat → String → Outcome) (round : Nat)
    (delayBetween : Rat) (hasCb : Bool) (batches : List (List String)) (st : St)
    (h : progOK st) :
    progOK (runRound pf round delayBetween hasCb batches st).1 := by
  induction batches generalizing st with
  | nil => simpa [runRound] using h
  | cons batch more ih =>
    simp only [runRound]
    apply ih
    constructor
    · show nondecreasing (progressValues
        (if more.isEmpty = true then _ else _)) = true
      split_ifs <;>
        simp only [progressValues_append, progressValues_netCalls,
          progressValues_progress_one, progressValues_sleepBatch_one,
          List.append_nil] <;>
        first
          | exact h.1
          | · apply nondecreasing_append_last _ _ h.1
              intro n hn
              exact le_trans (h.2 n hn) (Nat.le_add_right _ _)
    · show ∀ n ∈ progressValues
        (if more.isEmpty = true then _ else _), n ≤ _
      split_ifs <;>
        simp only [progressValues_append, progressValues_netCalls,
          progressValues_progress_one, progressValues_sleepBatch_one,
          List.append_nil, List.mem_append, List.mem_singleton] <;>
        intro n hn <;>
        first
          | exact le_trans (h.2 n hn) (Nat.le_add_right _ _)
          | rcases hn with hn | hn
            · exact le_trans (h.2 n hn) (Nat.le_add_right _ _)
            · simp [hn]

/-! ### Failure-set iteration lemmas -/

theorem iterFail_nil (pf : Nat → String → Outcome) (rc k : Nat) :
    iterFail pf rc [] k = [] := by
  induction k generalizing rc with
  | zero => rfl
  | succ k ih => simpa [iterFail] using ih (rc + 1)

theorem iterFail_peel (pf : Nat → String → Outcome) (rc : Nat) (F : List String)
    (k : Nat) :
    iterFail pf rc F (k + 1) =
      (iterFail pf rc F k).filter (fun sid => !(successful (pf (rc + k) sid))) := by
  induction k generalizing rc F with
  | zero => simp [iterFail]
  | succ k ih =>
    show iterFail pf (rc + 1) (F.filter _) (k + 1) = _
    rw [ih]
    have : rc + 1 + k = rc + (k + 1) := by omega
    rw [this]
    rfl

theorem iterFail_subset (pf : Nat → String → Outcome) (rc : Nat) (F : List String)
    (k : Nat) (sid : String) (h : sid ∈ iterFail pf rc F k) : sid ∈ F := by
  induction k generalizing rc F with
  | zero => exact h
  | succ k ih =>
    have h2 := ih (rc + 1) (F.filter (fun sid => !(successful (pf rc sid)))) h
    exact (List.mem_filter.mp h2).1

theorem iterFail_anti (pf : Nat → String → Outcome) (rc : Nat) (F : List String)
    (j k : Nat) (hjk : j ≤ k) (sid : String) (h : sid ∈ iterFail pf rc F k) :
    sid ∈ iterFail pf rc F j := by
  induction k with
  | zero =>
    have : j = 0 := by omega
    subst this
    exact h
  | succ k ih =>
    by_cases hj : j = k + 1
    · subst hj
      exact h
    · have hjk2 : j ≤ k := by omega
      rw [iterFail_peel] at h
      exact ih hjk2 ((List.mem_filter.mp h).1)

theorem iterFail_nodup (pf : Nat → String → Outcome) (rc : Nat) (F : List String)
    (k : Nat) (h : F.Nodup) : (iterFail pf rc F k).Nodup := by
  induction k generalizing rc F with
  | zero => exact h
  | succ k ih => exact ih (rc + 1) _ (h.filter _)

theorem mem_iterFail_of_allFail (pf : Nat → String → Outcome) (rc : Nat)
    (F : List String) (k : Nat) (sid : String) (hmem : sid ∈ F)
    (h : ∀ r, rc ≤ r → r < rc + k → successful (pf r sid) = false) :
    sid ∈ iterFail pf rc F k := by
  induction k with
  | zero => exact hmem
  | succ k ih =>
    rw [iterFail_peel]
    rw [List.mem_filter]
    refine ⟨ih (fun r h1 h2 => h r h1 (by omega)), ?_⟩
    simp [h (rc + k) (by omega) (by omega)]

theorem exists_success_of_drop (pf : Nat → String → Outcome) (rc : Nat)
    (F : List String) (n : Nat) (sid : String) (hmem : sid ∈ F)
    (h : sid ∉ iterFail pf rc F n) :
    ∃ k, k < n ∧ sid ∈ iterFail pf rc F k ∧ successful (pf (rc + k) sid) = true := by
  induction n with
  | zero => exact absurd hmem h
  | succ n ih =>
    by_cases hn : sid ∈ iterFail pf rc F n
    · refine ⟨n, by omega, hn, ?_⟩
      rw [iterFail_peel, List.mem_filter] at h
      by_cases hs : successful (pf (rc + n) sid) = true
      · exact hs
      · exact absurd ⟨hn, by simp [Bool.not_eq_true] at hs; simp [hs]⟩ h
    · obtain ⟨k, hk, hm, hs⟩ := ih hn
      exact ⟨k, by omega, hm, hs⟩

/-! ### Retry-loop characterization -/

theorem processLoop_snd (pf : Nat → String → Outcome) (batchSize : Nat)
    (delayBetween retryDelay : Rat) (hasCb : Bool) (fuel rc : Nat)
    (F : List String) (st : St) :
    (processLoop pf batchSize delayBetween retryDelay hasCb fuel rc F st).2 =
      iterFail pf rc F fuel := by
  induction fuel generalizing rc F st with
  | zero => rfl
  | succ fuel ih =>
    by_cases hF : F = []
    · subst hF
      simp [processLoop, iterFail_nil]
    · have hEmp : F.isEmpty = false := by
        cases F
        · exact absurd rfl hF
        · rfl
      simp only [processLoop, hEmp, Bool.false_eq_true, if_false]
      rw [ih, runRound_snd, chunks_flatten]
      rfl

theorem processLoop_events_append (pf : Nat → String → Outcome) (batchSize : Nat)
    (delayBetween retryDelay : Rat) (hasCb : Bool) (fuel rc : Nat)
    (F : List String) (st : St) :
    ∃ t, (processLoop pf batchSize delayBetween retryDelay hasCb fuel rc F st).1.events =
      st.events ++ t := by
  induction fuel generalizing rc F st with
  | zero => exact ⟨[], by simp [processLoop]⟩
  | succ fuel ih =>
    by_cases hF : F = []
    · subst hF
      exact ⟨[], by simp [processLoop]⟩
    · have hEmp : F.isEmpty = false := by
        cases F
        · exact absurd rfl hF
        · rfl
      simp only [processLoop, hEmp, Bool.false_eq_true, if_false]
      split_ifs with hrc
      · obtain ⟨t1, ht1⟩ := runRound_events_append pf rc delayBetween hasCb
          (chunks batchSize F)
          ⟨st.results, st.totalProcessed, st.events ++ [Event.sleepRetry retryDelay]⟩
        obtain ⟨t2, ht2⟩ := ih (rc + 1) _ _
        rw [ht2, ht1]
        simp only [List.append_assoc]
        exact ⟨_, rfl⟩
      · obtain ⟨t1, ht1⟩ := runRound_events_append pf rc delayBetween hasCb
          (chunks batchSize F) st
        obtain ⟨t2, ht2⟩ := ih (rc + 1) _ _
        rw [ht2, ht1]
        simp only [List.append_assoc]
        exact ⟨_, rfl⟩

theorem processLoop_netCall (pf : Nat → String → Outcome) (batchSize : Nat)
    (delayBetween retryDelay : Rat) (hasCb : Bool) (fuel rc : Nat)
    (F : List String) (st : St) (r : Nat) (sid : String) :
    Event.netCall r sid ∈
        (processLoop pf batchSize delayBetween retryDelay hasCb fuel rc F st).1.events ↔
      Event.netCall r sid ∈ st.events ∨
        (rc ≤ r ∧ r < rc + fuel ∧ sid ∈ iterFail pf rc F (r - rc)) := by
  induction fuel generalizing rc F st with
  | zero =>
    simp only [processLoop]
    constructor
    · intro h
      exact Or.inl h
    · rintro (h | ⟨h1, h2, h3⟩)
      · exact h
      · omega
  | succ fuel ih =>
    by_cases hF : F = []
    · subst hF
      simp only [processLoop, List.isEmpty_nil, if_true, iterFail_nil]
      constructor
      · intro h
        exact Or.inl h
      · rintro (h | ⟨h1, h2, h3⟩)
        · exact h
        · simp at h3
    · have hEmp : F.isEmpty = false := by
        cases F
        · exact absurd rfl hF
        · rfl
      simp only [processLoop, hEmp, Bool.false_eq_true, if_false]
      split_ifs with hrc
      · rw [ih, runRound_snd, chunks_flatten, runRound_events_netCall, chunks_flatten]
        have hmem0 : Event.netCall r sid ∈
            (⟨st.results, st.totalProcessed,
              st.events ++ [Event.sleepRetry retryDelay]⟩ : St).events ↔
            Event.netCall r sid ∈ st.events := by
          simp
        rw [hmem0]
        constructor
        · rintro ((h | ⟨hr, hs⟩) | ⟨h1, h2, h3⟩)
          · exact Or.inl h
          · subst hr
            refine Or.inr ⟨le_refl _, by omega, ?_⟩
            rw [Nat.sub_self]
            exact hs
          · refine Or.inr ⟨by omega, by omega, ?_⟩
            have he : r - rc = (r - (rc + 1)) + 1 := by omega
            rw [he]
            simp only [iterFail]
            exact h3
        · rintro (h | ⟨h1, h2, h3⟩)
          · exact Or.inl (Or.inl h)
          · by_cases hr : r = rc
            · subst hr
              rw [Nat.sub_self] at h3
              exact Or.inl (Or.inr ⟨rfl, h3⟩)
            · refine Or.inr ⟨by omega, by omega, ?_⟩
              have he : r - rc = (r - (rc + 1)) + 1 := by omega
              rw [he] at h3
              simp only [iterFail] at h3
              exact h3
      · rw [ih, runRound_snd, chunks_flatten, runRound_events_netCall, chunks_flatten]
        constructor
        · rintro ((h | ⟨hr, hs⟩) | ⟨h1, h2, h3⟩)
          · exact Or.inl h
          · subst hr
            refine Or.inr ⟨le_refl _, by omega, ?_⟩
            rw [Nat.sub_self]
            exact hs
          · refine Or.inr ⟨by omega, by omega, ?_⟩
            have he : r - rc = (r - (rc + 1)) + 1 := by omega
            rw [he]
            simp only [iterFail]
            exact h3
        · rintro (h | ⟨h1, h2, h3⟩)
          · exact Or.inl (Or.inl h)
          · by_cases hr : r = rc
            · subst hr
              rw [Nat.sub_self] at h3
              exact Or.inl (Or.inr ⟨rfl, h3⟩)
            · refine Or.inr ⟨by omega, by omega, ?_⟩
              have he : r - rc = (r - (rc + 1)) + 1 := by omega
              rw [he] at h3
              simp only [iterFail] at h3
              exact h3

theorem nodup_of_flatten_nodup (L : List (List String))
    (h : L.flatten.Nodup) : ∀ b ∈ L, b.Nodup := by
  induction L with
  | nil => simp
  | cons b rest ih =>
    rw [List.flatten_cons] at h
    intro c hc
    rcases List.mem_cons.mp hc with hc | hc
    · subst hc
      exact h.of_append_left
    · exact ih h.of_append_right c hc

theorem processLoop_sleepRetry (pf : Nat → String → Outcome) (batchSize : Nat)
    (delayBetween retryDelay : Rat) (hasCb : Bool) (fuel rc : Nat)
    (F : List String) (st : St) (d : Rat)
    (h : Event.sleepRetry d ∈
      (processLoop pf batchSize delayBetween retryDelay hasCb fuel rc F st).1.events) :
    Event.sleepRetry d ∈ st.events ∨ d = retryDelay := by
  induction fuel generalizing rc F st with
  | zero => exact Or.inl h
  | succ fuel ih =>
    by_cases hF : F = []
    · subst hF
      simpa [processLoop] using Or.inl h
    · have hEmp : F.isEmpty = false := by
        cases F
        · exact absurd rfl hF
        · rfl
      simp only [processLoop, hEmp, Bool.false_eq_true, if_false] at h
      split_ifs at h with hrc
      · rcases ih _ _ _ h with h2 | h2
        · rw [runRound_events_sleepRetry] at h2
          simpa using h2
        · exact Or.inr h2
      · rcases ih _ _ _ h with h2 | h2
        · rw [runRound_events_sleepRetry] at h2
          exact Or.inl h2
        · exact Or.inr h2

theorem processLoop_sleepRetry_of_call (pf : Nat → String → Outcome)
    (batchSize : Nat) (delayBetween retryDelay : Rat) (hasCb : Bool)
    (fuel rc : Nat) (F : List String) (st : St) (r : Nat) (sid : String)
    (h1 : 1 ≤ r) (h2 : rc ≤ r)
    (h : Event.netCall r sid ∈
      (processLoop pf batchSize delayBetween retryDelay hasCb fuel rc F st).1.events) :
    Event.netCall r sid ∈ st.events ∨
      Event.sleepRetry retryDelay ∈
        (processLoop pf batchSize delayBetween retryDelay hasCb fuel rc F st).1.events := by
  induction fuel generalizing rc F st with
  | zero => exact Or.inl h
  | succ fuel ih =>
    by_cases hF : F = []
    · subst hF
      simp only [processLoop, List.isEmpty_nil, if_true] at h ⊢
      exact Or.inl h
    · have hEmp : F.isEmpty = false := by
        cases F
        · exact absurd rfl hF
        · rfl
      simp only [processLoop, hEmp, Bool.false_eq_true, if_false] at h ⊢
      split_ifs at h ⊢ with hrc
      · refine Or.inr ?_
        obtain ⟨t2, ht2⟩ := processLoop_events_append pf batchSize delayBetween
          retryDelay hasCb fuel (rc + 1) _ _
        rw [ht2]
        obtain ⟨t1, ht1⟩ := runRound_events_append pf rc delayBetween hasCb
          (chunks batchSize F)
          ⟨st.results, st.totalProcessed, st.events ++ [Event.sleepRetry retryDelay]⟩
        rw [ht1]
        simp
      · have hrc0 : rc = 0 := by omega
        rcases ih (rc + 1) _ _ (by omega) h with h3 | h3
        · rw [runRound_events_netCall] at h3
          rcases h3 with h3 | ⟨h4, h5⟩
          · exact Or.inl h3
          · omega
        · exact Or.inr h3

theorem processLoop_results_preserved (pf : Nat → String → Outcome)
    (batchSize : Nat) (delayBetween retryDelay : Rat) (hasCb : Bool)
    (fuel rc : Nat) (F : List String) (st : St) (sid : String) (h : sid ∉ F) :
    dget? (processLoop pf batchSize delayBetween retryDelay hasCb fuel rc F st).1.results sid =
      dget? st.results sid := by
  induction fuel generalizing rc F st with
  | zero => rfl
  | succ fuel ih =>
    by_cases hF : F = []
    · subst hF
      simp [processLoop]
    · have hEmp : F.isEmpty = false := by
        cases F
        · exact absurd rfl hF
        · rfl
      simp only [processLoop, hEmp, Bool.false_eq_true, if_false]
      have hq2 : sid ∉ F.filter (fun s => !(successful (pf rc s))) := by
        intro hc
        exact h (List.mem_filter.mp hc).1
      split_ifs with hrc
      · rw [runRound_snd, chunks_flatten, ih _ _ _ hq2,
          runRound_results_preserved]
        intro hc
        rw [chunks_flatten] at hc
        exact absurd hc h
      · rw [runRound_snd, chunks_flatten, ih _ _ _ hq2,
          runRound_results_preserved]
        intro hc
        rw [chunks_flatten] at hc
        exact absurd hc h

theorem processLoop_results_preserved_fail (pf : Nat → String → Outcome)
    (batchSize : Nat) (delayBetween retryDelay : Rat) (hasCb : Bool)
    (fuel rc : Nat) (F : List String) (st : St) (sid : String)
    (h : ∀ r, rc ≤ r → r < rc + fuel → successful (pf r sid) = false) :
    dget? (processLoop pf batchSize delayBetween retryDelay hasCb fuel rc F st).1.results sid =
      dget? st.results sid := by
  induction fuel generalizing rc F st with
  | zero => rfl
  | succ fuel ih =>
    by_cases hF : F = []
    · subst hF
      simp [processLoop]
    · have hEmp : F.isEmpty = false := by
        cases F
        · exact absurd rfl hF
        · rfl
      simp only [processLoop, hEmp, Bool.false_eq_true, if_false]
      have hnext : ∀ r, rc + 1 ≤ r → r < rc + 1 + fuel → successful (pf r sid) = false :=
        fun r hr1 hr2 => h r (by omega) (by omega)
      split_ifs with hrc
      · rw [ih _ _ _ hnext, runRound_results_preserved]
        intro _
        exact h rc (le_refl _) (by omega)
      · rw [ih _ _ _ hnext, runRound_results_preserved]
        intro _
        exact h rc (le_refl _) (by omega)

theorem processLoop_results_get_success (pf : Nat → String → Outcome)
    (batchSize : Nat) (delayBetween retryDelay : Rat) (hasCb : Bool)
    (fuel rc : Nat) (F : List String) (st : St) (sid : String) (r : Nat)
    (hF : F.Nodup) (h1 : rc ≤ r) (h2 : r < rc + fuel)
    (hmem : sid ∈ iterFail pf rc F (r - rc))
    (hs : successful (pf r sid) = true) :
    dget? (processLoop pf batchSize delayBetween retryDelay hasCb fuel rc F st).1.results sid =
      some (resultOf (pf r sid)) := by
  induction fuel generalizing rc F st with
  | zero => omega
  | succ fuel ih =>
    by_cases hFnil : F = []
    · subst hFnil
      rw [iterFail_nil] at hmem
      simp at hmem
    · have hEmp : F.isEmpty = false := by
        cases F
        · exact absurd rfl hFnil
        · rfl
      simp only [processLoop, hEmp, Bool.false_eq_true, if_false]
      by_cases hr : r = rc
      · subst hr
        rw [Nat.sub_self] at hmem
        have hq2 : sid ∉ F.filter (fun s => !(successful (pf r s))) := by
          intro hc
          have := (List.mem_filter.mp hc).2
          simp [hs] at this
        split_ifs with hrc
        · rw [runRound_snd, chunks_flatten,
            processLoop_results_preserved _ _ _ _ _ _ _ _ _ _ hq2,
            runRound_results_get_success]
          · exact nodup_of_flatten_nodup _ (by rw [chunks_flatten]; exact hF)
          · rw [chunks_flatten]
            exact hmem
          · exact hs
        · rw [runRound_snd, chunks_flatten,
            processLoop_results_preserved _ _ _ _ _ _ _ _ _ _ hq2,
            runRound_results_get_success]
          · exact nodup_of_flatten_nodup _ (by rw [chunks_flatten]; exact hF)
          · rw [chunks_flatten]
            exact hmem
          · exact hs
      · have he : r - rc = (r - (rc + 1)) + 1 := by omega
        rw [he] at hmem
        simp only [iterFail] at hmem
        split_ifs with hrc
        · rw [runRound_snd, chunks_flatten]
          exact ih _ _ _ (hF.filter _) (by omega) (by omega) hmem
        · rw [runRound_snd, chunks_flatten]
          exact ih _ _ _ (hF.filter _) (by omega) (by omega) hmem

theorem processLoop_results_nodup (pf : Nat → String → Outcome)
    (batchSize : Nat) (delayBetween retryDelay : Rat) (hasCb : Bool)
    (fuel rc : Nat) (F : List String) (st : St)
    (h : (dkeys st.results).Nodup) :
    (dkeys (processLoop pf batchSize delayBetween retryDelay hasCb fuel rc F st).1.results).Nodup := by
  induction fuel generalizing rc F st with
  | zero => exact h
  | succ fuel ih =>
    by_cases hF : F = []
    · subst hF
      simpa [processLoop] using h
    · have hEmp : F.isEmpty = false := by
        cases F
        · exact absurd rfl hF
        · rfl
      simp only [processLoop, hEmp, Bool.false_eq_true, if_false]
      split_ifs with hrc
      · exact ih _ _ _ (runRound_results_nodup _ _ _ _ _ _ h)
      · exact ih _ _ _ (runRound_results_nodup _ _ _ _ _ _ h)

theorem processLoop_progOK (pf : Nat → String → Outcome) (batchSize : Nat)
    (delayBetween retryDelay : Rat) (hasCb : Bool) (fuel rc : Nat)
    (F : List String) (st : St) (h : progOK st) :
    progOK (processLoop pf batchSize delayBetween retryDelay hasCb fuel rc F st).1 := by
  induction fuel generalizing rc F st with
  | zero => exact h
  | succ fuel ih =>
    by_cases hF : F = []
    · subst hF
      simpa [processLoop] using h
    · have hEmp : F.isEmpty = false := by
        cases F
        · exact absurd rfl hF
        · rfl
      simp only [processLoop, hEmp, Bool.false_eq_true, if_false]
      split_ifs with hrc
      · apply ih
        apply runRound_progOK
        constructor
        · show nondecreasing (progressValues (st.events ++ [Event.sleepRetry retryDelay])) = true
          rw [progressValues_append, progressValues_sleepRetry_one, List.append_nil]
          exact h.1
        · show ∀ n ∈ progressValues (st.events ++ [Event.sleepRetry retryDelay]), n ≤ _
          rw [progressValues_append, progressValues_sleepRetry_one, List.append_nil]
          exact h.2
      · exact ih _ _ _ (runRound_progOK _ _ _ _ _ _ h)

/-! ### process_in_batches lemmas -/

theorem foldl_dinsert_empty_get (l : List String) (d : Dict) (k : String) :
    dget? (l.foldl (fun acc s => dinsert acc s emptyRes) d) k =
      if k ∈ l then some emptyRes else dget? d k :=
  foldl_dinsert_get (fun _ => emptyRes) l d k

theorem pib_events_netCall (pf : Nat → String → Outcome) (ids : List String)
    (batchSize maxWorkers : Nat) (delayBetweenBatches : Rat) (maxRetries : Nat)
    (retryDelay : Rat) (hasCb : Bool) (r : Nat) (sid : String) :
    Event.netCall r sid ∈
        (process_in_batches pf ids batchSize maxWorkers delayBetweenBatches
          maxRetries retryDelay hasCb).events ↔
      r ≤ maxRetries ∧ sid ∈ iterFail pf 0 (dedupFirst ids) r := by
  show Event.netCall r sid ∈
      (processLoop pf batchSize delayBetweenBatches retryDelay hasCb
        (maxRetries + 1) 0 (dedupFirst ids) ⟨[], 0, []⟩).1.events ↔ _
  rw [processLoop_netCall]
  simp only [List.not_mem_nil, false_or, Nat.zero_le, true_and, Nat.zero_add,
    Nat.sub_zero]
  constructor
  · rintro ⟨h1, h2⟩
    exact ⟨by omega, h2⟩
  · rintro ⟨h1, h2⟩
    exact ⟨by omega, h2⟩

theorem pib_events_sleepRetry (pf : Nat → String → Outcome) (ids : List String)
    (batchSize maxWorkers : Nat) (delayBetweenBatches : Rat) (maxRetries : Nat)
    (retryDelay : Rat) (hasCb : Bool) (d : Rat)
    (h : Event.sleepRetry d ∈
      (process_in_batches pf ids batchSize maxWorkers delayBetweenBatches
        maxRetries retryDelay hasCb).events) :
    d = retryDelay := by
  have h2 := processLoop_sleepRetry pf batchSize delayBetweenBatches retryDelay
    hasCb (maxRetries + 1) 0 (dedupFirst ids) ⟨[], 0, []⟩ d h
  rcases h2 with h2 | h2
  · simp at h2
  · exact h2

theorem pib_events_sleepRetry_of_call (pf : Nat → String → Outcome)
    (ids : List String) (batchSize maxWorkers : Nat) (delayBetweenBatches : Rat)
    (maxRetries : Nat) (retryDelay : Rat) (hasCb : Bool) (r : Nat) (sid : String)
    (h1 : 1 ≤ r)
    (h : Event.netCall r sid ∈
      (process_in_batches pf ids batchSize maxWorkers delayBetweenBatches
        maxRetries retryDelay hasCb).events) :
    Event.sleepRetry retryDelay ∈
      (process_in_batches pf ids batchSize maxWorkers delayBetweenBatches
        maxRetries retryDelay hasCb).events := by
  have h2 := processLoop_sleepRetry_of_call pf batchSize delayBetweenBatches
    retryDelay hasCb (maxRetries + 1) 0 (dedupFirst ids) ⟨[], 0, []⟩ r sid h1
    (by omega) h
  rcases h2 with h2 | h2
  · simp at h2
  · exact h2

theorem pib_results_get_of_first_success (pf : Nat → String → Outcome)
    (ids : List String) (batchSize maxWorkers : Nat) (delayBetweenBatches : Rat)
    (maxRetries : Nat) (retryDelay : Rat) (hasCb : Bool) (sid : String)
    (hmem : sid ∈ ids) (hs : successful (pf 0 sid) = true) :
    dget? (process_in_batches pf ids batchSize maxWorkers delayBetweenBatches
        maxRetries retryDelay hasCb).results sid =
      some (resultOf (pf 0 sid)) := by
  show dget? ((processLoop pf batchSize delayBetweenBatches retryDelay hasCb
      (maxRetries + 1) 0 (dedupFirst ids) ⟨[], 0, []⟩).2.foldl
        (fun d s => dinsert d s emptyRes)
        (processLoop pf batchSize delayBetweenBatches retryDelay hasCb
          (maxRetries + 1) 0 (dedupFirst ids) ⟨[], 0, []⟩).1.results) sid = _
  rw [foldl_dinsert_empty_get, processLoop_snd]
  have hnotrem : sid ∉ iterFail pf 0 (dedupFirst ids) (maxRetries + 1) := by
    intro hc
    have h1 := iterFail_anti pf 0 (dedupFirst ids) 1 (maxRetries + 1) (by omega) sid hc
    rw [iterFail_peel] at h1
    have := (List.mem_filter.mp h1).2
    simp [hs] at this
  rw [if_neg hnotrem]
  exact processLoop_results_get_success pf batchSize delayBetweenBatches
    retryDelay hasCb (maxRetries + 1) 0 (dedupFirst ids) ⟨[], 0, []⟩ sid 0
    (nodup_dedupFirst ids) (le_refl 0) (by omega)
    (by rw [Nat.sub_self]; exact (mem_dedupFirst ids sid).mpr hmem) hs

theorem pib_results_get_allFail (pf : Nat → String → Outcome)
    (ids : List String) (batchSize maxWorkers : Nat) (delayBetweenBatches : Rat)
    (maxRetries : Nat) (retryDelay : Rat) (hasCb : Bool) (sid : String)
    (hmem : sid ∈ ids)
    (hfail : ∀ r, r ≤ maxRetries → successful (pf r sid) = false) :
    dget? (process_in_batches pf ids batchSize maxWorkers delayBetweenBatches
        maxRetries retryDelay hasCb).results sid = some emptyRes := by
  show dget? ((processLoop pf batchSize delayBetweenBatches retryDelay hasCb
      (maxRetries + 1) 0 (dedupFirst ids) ⟨[], 0, []⟩).2.foldl
        (fun d s => dinsert d s emptyRes)
        (processLoop pf batchSize delayBetweenBatches retryDelay hasCb
          (maxRetries + 1) 0 (dedupFirst ids) ⟨[], 0, []⟩).1.results) sid = _
  rw [foldl_dinsert_empty_get, processLoop_snd]
  rw [if_pos]
  exact mem_iterFail_of_allFail pf 0 (dedupFirst ids) (maxRetries + 1) sid
    ((mem_dedupFirst ids sid).mpr hmem)
    (fun r hr1 hr2 => hfail r (by omega))

theorem pib_results_get_isSome (pf : Nat → String → Outcome)
    (ids : List String) (batchSize maxWorkers : Nat) (delayBetweenBatches : Rat)
    (maxRetries : Nat) (retryDelay : Rat) (hasCb : Bool) (sid : String)
    (hmem : sid ∈ ids) :
    (dget? (process_in_batches pf ids batchSize maxWorkers delayBetweenBatches
        maxRetries retryDelay hasCb).results sid).isSome := by
  show (dget? ((processLoop pf batchSize delayBetweenBatches retryDelay hasCb
      (maxRetries + 1) 0 (dedupFirst ids) ⟨[], 0, []⟩).2.foldl
        (fun d s => dinsert d s emptyRes)
        (processLoop pf batchSize delayBetweenBatches retryDelay hasCb
          (maxRetries + 1) 0 (dedupFirst ids) ⟨[], 0, []⟩).1.results) sid).isSome
  rw [foldl_dinsert_empty_get, processLoop_snd]
  by_cases hrem : sid ∈ iterFail pf 0 (dedupFirst ids) (maxRetries + 1)
  · rw [if_pos hrem]
    rfl
  · rw [if_neg hrem]
    obtain ⟨k, hk, hm, hs⟩ := exists_success_of_drop pf 0 (dedupFirst ids)
      (maxRetries + 1) sid ((mem_dedupFirst ids sid).mpr hmem) hrem
    rw [processLoop_results_get_success pf batchSize delayBetweenBatches
      retryDelay hasCb (maxRetries + 1) 0 (dedupFirst ids) ⟨[], 0, []⟩ sid k
      (nodup_dedupFirst ids) (by omega) (by omega)
      (by rw [Nat.sub_zero]; exact hm) (by rw [Nat.zero_add] at hs; exact hs)]
    rfl

theorem pib_results_get_none (pf : Nat → String → Outcome)
    (ids : List String) (batchSize maxWorkers : Nat) (delayBetweenBatches : Rat)
    (maxRetries : Nat) (retryDelay : Rat) (hasCb : Bool) (sid : String)
    (hmem : sid ∉ ids) :
    dget? (process_in_batches pf ids batchSize maxWorkers delayBetweenBatches
        maxRetries retryDelay hasCb).results sid = none := by
  show dget? ((processLoop pf batchSize delayBetweenBatches retryDelay hasCb
      (maxRetries + 1) 0 (dedupFirst ids) ⟨[], 0, []⟩).2.foldl
        (fun d s => dinsert d s emptyRes)
        (processLoop pf batchSize delayBetweenBatches retryDelay hasCb
          (maxRetries + 1) 0 (dedupFirst ids) ⟨[], 0, []⟩).1.results) sid = none
  have hF : sid ∉ dedupFirst ids := fun hc => hmem ((mem_dedupFirst ids sid).mp hc)
  rw [foldl_dinsert_empty_get, processLoop_snd]
  rw [if_neg (fun hc => hF (iterFail_subset pf 0 (dedupFirst ids) _ sid hc))]
  rw [processLoop_results_preserved _ _ _ _ _ _ _ _ _ _ hF]
  rfl

theorem pib_results_nodup (pf : Nat → String → Outcome) (ids : List String)
    (batchSize maxWorkers : Nat) (delayBetweenBatches : Rat) (maxRetries : Nat)
    (retryDelay : Rat) (hasCb : Bool) :
    (dkeys (process_in_batches pf ids batchSize maxWorkers delayBetweenBatches
        maxRetries retryDelay hasCb).results).Nodup := by
  show (dkeys ((processLoop pf batchSize delayBetweenBatches retryDelay hasCb
      (maxRetries + 1) 0 (dedupFirst ids) ⟨[], 0, []⟩).2.foldl
        (fun d s => dinsert d s emptyRes)
        (processLoop pf batchSize delayBetweenBatches retryDelay hasCb
          (maxRetries + 1) 0 (dedupFirst ids) ⟨[], 0, []⟩).1.results)).Nodup
  exact foldl_dinsert_nodup (fun _ => emptyRes) _ _
    (processLoop_results_nodup _ _ _ _ _ _ _ _ _ (by simp [dkeys]))

theorem pib_progress_nondecreasing (pf : Nat → String → Outcome)
    (ids : List String) (batchSize maxWorkers : Nat) (delayBetweenBatches : Rat)
    (maxRetries : Nat) (retryDelay : Rat) (hasCb : Bool) :
    nondecreasing (progressValues
      (process_in_batches pf ids batchSize maxWorkers delayBetweenBatches
        maxRetries retryDelay hasCb).events) = true := by
  show nondecreasing (progressValues
    (processLoop pf batchSize delayBetweenBatches retryDelay hasCb
      (maxRetries + 1) 0 (dedupFirst ids) ⟨[], 0, []⟩).1.events) = true
  exact (processLoop_progOK pf batchSize delayBetweenBatches retryDelay hasCb
    (maxRetries + 1) 0 (dedupFirst ids) ⟨[], 0, []⟩
    ⟨by simp [progressValues, nondecreasing], by simp [progressValues]⟩).1

/-! ### Cache/known-mapping split lemmas -/

theorem dget?_dupdate_of_base_none (d d2 : Dict) (k : String)
    (h : dget? d k = none) (hnd : (dkeys d2).Nodup) :
    dget? (dupdate d d2) k = dget? d2 k := by
  cases h2 : dget? d2 k with
  | none => rw [dget?_dupdate_of_none _ _ _ h2, h]
  | some v => rw [dget?_dupdate_of_some _ _ _ _ hnd h2]

theorem splitCached_snd (known : Dict) (cache : Option Dict) (l : List String) :
    (splitCached known cache l).2 =
      l.filter (fun sid => (hitVal known cache sid).isNone) := by
  induction l with
  | nil => simp [splitCached]
  | cons sid rest ih =>
    cases hv : hitVal known cache sid with
    | some r => simp [splitCached, hv, ih]
    | none => simp [splitCached, hv, ih]

theorem splitCached_fst_get (known : Dict) (cache : Option Dict)
    (l : List String) (sid : String) :
    dget? (splitCached known cache l).1 sid =
      if sid ∈ l then hitVal known cache sid else none := by
  induction l with
  | nil => simp [splitCached, dget?]
  | cons x rest ih =>
    by_cases hx : x = sid
    · subst hx
      cases hv : hitVal known cache x with
      | some r => simp [splitCached, hv, dget?]
      | none =>
        simp only [splitCached, hv]
        rw [ih]
        by_cases hr : x ∈ rest
        · simp [hr, hv]
        · simp [hr]
    · have hsx : ¬ sid = x := fun hh => hx hh.symm
      cases hv : hitVal known cache x with
      | some r =>
        simp only [splitCached, hv, dget?, if_neg hx]
        rw [ih]
        simp [hsx]
      | none =>
        simp only [splitCached, hv]
        rw [ih]
        simp [hsx]

theorem splitCached_fst_keys (known : Dict) (cache : Option Dict)
    (l : List String) :
    dkeys (splitCached known cache l).1 =
      l.filter (fun sid => (hitVal known cache sid).isSome) := by
  induction l with
  | nil => simp [splitCached, dkeys]
  | cons sid rest ih =>
    cases hv : hitVal known cache sid with
    | some r =>
      simp only [splitCached, hv]
      simp [dkeys, hv] at *
      exact ih
    | none =>
      simp only [splitCached, hv]
      simp [dkeys, hv] at *
      exact ih

theorem startsWith_srp_not_erp (s : String)
    (h : startsWith s "SRP" = true) : startsWith s "ERP" = false := by
  unfold startsWith at *
  have hSRP : "SRP".data = ['S', 'R', 'P'] := rfl
  have hERP : "ERP".data = ['E', 'R', 'P'] := rfl
  rw [hSRP] at h
  rw [hERP]
  cases hd : s.data with
  | nil =>
    rw [hd] at h
    simp [charPrefix] at h
  | cons c cs =>
    rw [hd] at h
    simp only [charPrefix, Bool.and_eq_true, decide_eq_true_eq] at h
    have hE : ('E' : Char) ≠ c := by
      rw [← h.1]
      decide
    simp [charPrefix, hE]

theorem startsWith_erp_not_srp (s : String)
    (h : startsWith s "ERP" = true) : startsWith s "SRP" = false := by
  unfold startsWith at *
  have hSRP : "SRP".data = ['S', 'R', 'P'] := rfl
  have hERP : "ERP".data = ['E', 'R', 'P'] := rfl
  rw [hERP] at h
  rw [hSRP]
  cases hd : s.data with
  | nil =>
    rw [hd] at h
    simp [charPrefix] at h
  | cons c cs =>
    rw [hd] at h
    simp only [charPrefix, Bool.and_eq_true, decide_eq_true_eq] at h
    have hS : ('S' : Char) ≠ c := by
      rw [← h.1]
      decide
    simp [charPrefix, hS]

/-! ### convert_sra_ids internal characterization -/

theorem convertResults_get_of_hit (known : Dict)
    (srpFunc erpFunc : Nat → String → Outcome) (sra_ids : List String)
    (batchSize maxWorkers : Nat) (delayBetweenBatches : Rat)
    (cache : Option Dict) (maxRetries : Nat) (retryDelay : Rat) (hasCb : Bool)
    (sid : String) (v : Res) (hmem : sid ∈ sra_ids)
    (hv : hitVal known cache sid = some v) :
    dget? (convertResults known srpFunc erpFunc sra_ids batchSize maxWorkers
      delayBetweenBatches cache maxRetries retryDelay hasCb) sid = some v := by
  have hrem : sid ∉ remainingIds known cache sra_ids := by
    rw [remainingIds, splitCached_snd]
    intro hc
    have h2 := (List.mem_filter.mp hc).2
    rw [hv] at h2
    simp at h2
  have hsrp : sid ∉ srpList known cache sra_ids := by
    rw [srpList]
    intro hc
    exact hrem (List.mem_filter.mp hc).1
  have herp : sid ∉ erpList known cache sra_ids := by
    rw [erpList]
    intro hc
    exact hrem (List.mem_filter.mp hc).1
  have hS := pib_results_get_none srpFunc (srpList known cache sra_ids)
    batchSize maxWorkers delayBetweenBatches maxRetries retryDelay hasCb sid hsrp
  have hE := pib_results_get_none erpFunc (erpList known cache sra_ids)
    batchSize maxWorkers delayBetweenBatches maxRetries retryDelay hasCb sid herp
  have hbase : dget? (splitCached known cache (dedupFirst sra_ids)).1 sid = some v := by
    rw [splitCached_fst_get, if_pos ((mem_dedupFirst _ _).mpr hmem), hv]
  simp only [convertResults]
  split_ifs
  · exact hbase
  · rw [dget?_dupdate_of_none _ _ _ hS]
    exact hbase
  · rw [dget?_dupdate_of_none _ _ _ hE]
    exact hbase
  · rw [dget?_dupdate_of_none _ _ _ hE, dget?_dupdate_of_none _ _ _ hS]
    exact hbase

theorem convertResults_get_srp (known : Dict)
    (srpFunc erpFunc : Nat → String → Outcome) (sra_ids : List String)
    (batchSize maxWorkers : Nat) (delayBetweenBatches : Rat)
    (cache : Option Dict) (maxRetries : Nat) (retryDelay : Rat) (hasCb : Bool)
    (sid : String) (hmem : sid ∈ sra_ids)
    (hv : hitVal known cache sid = none)
    (hpre : startsWith sid "SRP" = true) :
    dget? (convertResults known srpFunc erpFunc sra_ids batchSize maxWorkers
        delayBetweenBatches cache maxRetries retryDelay hasCb) sid =
      dget? (process_in_batches srpFunc (srpList known cache sra_ids) batchSize
        maxWorkers delayBetweenBatches maxRetries retryDelay hasCb).results sid := by
  have hrem : sid ∈ remainingIds known cache sra_ids := by
    rw [remainingIds, splitCached_snd, List.mem_filter]
    exact ⟨(mem_dedupFirst _ _).mpr hmem, by rw [hv]; rfl⟩
  have hsrp : sid ∈ srpList known cache sra_ids := by
    rw [srpList, List.mem_filter]
    exact ⟨hrem, hpre⟩
  have herp : sid ∉ erpList known cache sra_ids := by
    rw [erpList, List.mem_filter]
    intro hc
    rw [startsWith_srp_not_erp sid hpre] at hc
    exact absurd hc.2 (by simp)
  have hE := pib_results_get_none erpFunc (erpList known cache sra_ids)
    batchSize maxWorkers delayBetweenBatches maxRetries retryDelay hasCb sid herp
  have hbase : dget? (splitCached known cache (dedupFirst sra_ids)).1 sid = none := by
    rw [splitCached_fst_get]
    split_ifs <;> simp [hv]
  have hsrpne : (srpList known cache sra_ids).isEmpty = false := by
    cases hL : srpList known cache sra_ids
    · rw [hL] at hsrp
      simp at hsrp
    · rfl
  have hnd := pib_results_nodup srpFunc (srpList known cache sra_ids) batchSize
    maxWorkers delayBetweenBatches maxRetries retryDelay hasCb
  simp only [convertResults, hsrpne, Bool.false_eq_true, if_false]
  split_ifs
  · exact dget?_dupdate_of_base_none _ _ _ hbase hnd
  · rw [dget?_dupdate_of_none _ _ _ hE]
    exact dget?_dupdate_of_base_none _ _ _ hbase hnd

theorem convertResults_get_erp (known : Dict)
    (srpFunc erpFunc : Nat → String → Outcome) (sra_ids : List String)
    (batchSize maxWorkers : Nat) (delayBetweenBatches : Rat)
    (cache : Option Dict) (maxRetries : Nat) (retryDelay : Rat) (hasCb : Bool)
    (sid : String) (hmem : sid ∈ sra_ids)
    (hv : hitVal known cache sid = none)
    (hpre : startsWith sid "ERP" = true) :
    dget? (convertResults known srpFunc erpFunc sra_ids batchSize maxWorkers
        delayBetweenBatches cache maxRetries retryDelay hasCb) sid =
      dget? (process_in_batches erpFunc (erpList known cache sra_ids) batchSize
        maxWorkers delayBetweenBatches maxRetries retryDelay hasCb).results sid := by
  have hrem : sid ∈ remainingIds known cache sra_ids := by
    rw [remainingIds, splitCached_snd, List.mem_filter]
    exact ⟨(mem_dedupFirst _ _).mpr hmem, by rw [hv]; rfl⟩
  have herp : sid ∈ erpList known cache sra_ids := by
    rw [erpList, List.mem_filter]
    exact ⟨hrem, hpre⟩
  have hsrp : sid ∉ srpList known cache sra_ids := by
    rw [srpList, List.mem_filter]
    intro hc
    rw [startsWith_erp_not_srp sid hpre] at hc
    exact absurd hc.2 (by simp)
  have hS := pib_results_get_none srpFunc (srpList known cache sra_ids)
    batchSize maxWorkers delayBetweenBatches maxRetries retryDelay hasCb sid hsrp
  have hbase : dget? (splitCached known cache (dedupFirst sra_ids)).1 sid = none := by
    rw [splitCached_fst_get]
    split_ifs <;> simp [hv]
  have herpne : (erpList known cache sra_ids).isEmpty = false := by
    cases hL : erpList known cache sra_ids
    · rw [hL] at herp
      simp at herp
    · rfl
  have hndE := pib_results_nodup erpFunc (erpList known cache sra_ids) batchSize
    maxWorkers delayBetweenBatches maxRetries retryDelay hasCb
  simp only [convertResults, herpne, Bool.false_eq_true, if_false]
  split_ifs
  · exact dget?_dupdate_of_base_none _ _ _ hbase hndE
  · apply dget?_dupdate_of_base_none _ _ _ _ hndE
    rw [dget?_dupdate_of_none _ _ _ hS]
    exact hbase

theorem convertResults_get_other (known : Dict)
    (srpFunc erpFunc : Nat → String → Outcome) (sra_ids : List String)
    (batchSize maxWorkers : Nat) (delayBetweenBatches : Rat)
    (cache : Option Dict) (maxRetries : Nat) (retryDelay : Rat) (hasCb : Bool)
    (sid : String) (hv : hitVal known cache sid = none)
    (hpre1 : startsWith sid "SRP" = false)
    (hpre2 : startsWith sid "ERP" = false) :
    dget? (convertResults known srpFunc erpFunc sra_ids batchSize maxWorkers
      delayBetweenBatches cache maxRetries retryDelay hasCb) sid = none := by
  have hsrp : sid ∉ srpList known cache sra_ids := by
    rw [srpList, List.mem_filter]
    intro hc
    rw [hpre1] at hc
    exact absurd hc.2 (by simp)
  have herp : sid ∉ erpList known cache sra_ids := by
    rw [erpList, List.mem_filter]
    intro hc
    rw [hpre2] at hc
    exact absurd hc.2 (by simp)
  have hS := pib_results_get_none srpFunc (srpList known cache sra_ids)
    batchSize maxWorkers delayBetweenBatches maxRetries retryDelay hasCb sid hsrp
  have hE := pib_results_get_none erpFunc (erpList known cache sra_ids)
    batchSize maxWorkers delayBetweenBatches maxRetries retryDelay hasCb sid herp
  have hbase : dget? (splitCached known cache (dedupFirst sra_ids)).1 sid = none := by
    rw [splitCached_fst_get]
    split_ifs <;> simp [hv]
  simp only [convertResults]
  split_ifs
  · exact hbase
  · rw [dget?_dupdate_of_none _ _ _ hS]
    exact hbase
  · rw [dget?_dupdate_of_none _ _ _ hE]
    exact hbase
  · rw [dget?_dupdate_of_none _ _ _ hE, dget?_dupdate_of_none _ _ _ hS]
    exact hbase

theorem convertResults_get_notMem (known : Dict)
    (srpFunc erpFunc : Nat → String → Outcome) (sra_ids : List String)
    (batchSize maxWorkers : Nat) (delayBetweenBatches : Rat)
    (cache : Option Dict) (maxRetries : Nat) (retryDelay : Rat) (hasCb : Bool)
    (sid : String) (hmem : sid ∉ sra_ids) :
    dget? (convertResults known srpFunc erpFunc sra_ids batchSize maxWorkers
      delayBetweenBatches cache maxRetries retryDelay hasCb) sid = none := by
  have hrem : sid ∉ remainingIds known cache sra_ids := by
    rw [remainingIds, splitCached_snd]
    intro hc
    exact hmem ((mem_dedupFirst _ _).mp (List.mem_filter.mp hc).1)
  have hsrp : sid ∉ srpList known cache sra_ids := by
    rw [srpList]
    intro hc
    exact hrem (List.mem_filter.mp hc).1
  have herp : sid ∉ erpList known cache sra_ids := by
    rw [erpList]
    intro hc
    exact hrem (List.mem_filter.mp hc).1
  have hS := pib_results_get_none srpFunc (srpList known cache sra_ids)
    batchSize maxWorkers delayBetweenBatches maxRetries retryDelay hasCb sid hsrp
  have hE := pib_results_get_none erpFunc (erpList known cache sra_ids)
    batchSize maxWorkers delayBetweenBatches maxRetries retryDelay hasCb sid herp
  have hbase : dget? (splitCached known cache (dedupFirst sra_ids)).1 sid = none := by
    rw [splitCached_fst_get,
      if_neg (fun hc => hmem ((mem_dedupFirst _ _).mp hc))]
  simp only [convertResults]
  split_ifs
  · exact hbase
  · rw [dget?_dupdate_of_none _ _ _ hS]
    exact hbase
  · rw [dget?_dupdate_of_none _ _ _ hE]
    exact hbase
  · rw [dget?_dupdate_of_none _ _ _ hE, dget?_dupdate_of_none _ _ _ hS]
    exact hbase

theorem convertResults_nodup (known : Dict)
    (srpFunc erpFunc : Nat → String → Outcome) (sra_ids : List String)
    (batchSize maxWorkers : Nat) (delayBetweenBatches : Rat)
    (cache : Option Dict) (maxRetries : Nat) (retryDelay : Rat) (hasCb : Bool) :
    (dkeys (convertResults known srpFunc erpFunc sra_ids batchSize maxWorkers
      delayBetweenBatches cache maxRetries retryDelay hasCb)).Nodup := by
  have hbase : (dkeys (splitCached known cache (dedupFirst sra_ids)).1).Nodup := by
    rw [splitCached_fst_keys]
    exact (nodup_dedupFirst sra_ids).filter _
  simp only [convertResults]
  split_ifs
  · exact hbase
  · exact nodup_dkeys_dupdate _ _ hbase
  · exact nodup_dkeys_dupdate _ _ hbase
  · exact nodup_dkeys_dupdate _ _ (nodup_dkeys_dupdate _ _ hbase)

theorem netCall_not_mem_shortcircuit (r : Nat) (sid : String) (b : Bool)
    (pc : Nat) (ol : List String) :
    Event.netCall r sid ∉
      ((if b ∧ 0 < pc then [Event.progress pc] else []) ++
        (if ol.isEmpty then [] else [Event.warnUnknown ol])) := by
  intro hc
  rcases List.mem_append.mp hc with hc | hc <;> split_ifs at hc <;> simp at hc

theorem convertEvents_netCall (known : Dict)
    (srpFunc erpFunc : Nat → String → Outcome) (sra_ids : List String)
    (batchSize maxWorkers : Nat) (delayBetweenBatches : Rat)
    (cache : Option Dict) (maxRetries : Nat) (retryDelay : Rat) (hasCb : Bool)
    (r : Nat) (sid : String)
    (h : Event.netCall r sid ∈ convertEvents known srpFunc erpFunc sra_ids
      batchSize maxWorkers delayBetweenBatches cache maxRetries retryDelay hasCb) :
    sid ∈ srpList known cache sra_ids ∨ sid ∈ erpList known cache sra_ids := by
  have hpib : ∀ (pf : Nat → String → Outcome) (ids : List String),
      Event.netCall r sid ∈ (process_in_batches pf ids batchSize maxWorkers
        delayBetweenBatches maxRetries retryDelay hasCb).events → sid ∈ ids := by
    intro pf ids hc
    have h2 := ((pib_events_netCall pf ids batchSize maxWorkers
      delayBetweenBatches maxRetries retryDelay hasCb r sid).mp hc).2
    exact (mem_dedupFirst ids sid).mp (iterFail_subset pf 0 _ _ sid h2)
  by_cases hE : (erpList known cache sra_ids).isEmpty = true <;>
    by_cases hS : (srpList known cache sra_ids).isEmpty = true <;>
      simp only [convertEvents, hE, hS, Bool.false_eq_true, if_true, if_false] at h
  · exact absurd h (netCall_not_mem_shortcircuit _ _ _ _ _)
  · rcases List.mem_append.mp h with h | h
    · exact absurd h (netCall_not_mem_shortcircuit _ _ _ _ _)
    · exact Or.inl (hpib _ _ h)
  · rcases List.mem_append.mp h with h | h
    · exact absurd h (netCall_not_mem_shortcircuit _ _ _ _ _)
    · exact Or.inr (hpib _ _ h)
  · rcases List.mem_append.mp h with h | h
    · rcases List.mem_append.mp h with h | h
      · exact absurd h (netCall_not_mem_shortcircuit _ _ _ _ _)
      · exact Or.inl (hpib _ _ h)
    · exact Or.inr (hpib _ _ h)

theorem convertEvents_warn (known : Dict)
    (srpFunc erpFunc : Nat → String → Outcome) (sra_ids : List String)
    (batchSize maxWorkers : Nat) (delayBetweenBatches : Rat)
    (cache : Option Dict) (maxRetries : Nat) (retryDelay : Rat) (hasCb : Bool)
    (sid : String) (hmem : sid ∈ otherList known cache sra_ids) :
    Event.warnUnknown (otherList known cache sra_ids) ∈
      convertEvents known srpFunc erpFunc sra_ids batchSize maxWorkers
        delayBetweenBatches cache maxRetries retryDelay hasCb := by
  have hne : (otherList known cache sra_ids).isEmpty = false := by
    cases hL : otherList known cache sra_ids
    · rw [hL] at hmem
      simp at hmem
    · rfl
  by_cases hE : (erpList known cache sra_ids).isEmpty = true <;>
    by_cases hS : (srpList known cache sra_ids).isEmpty = true <;>
      simp [convertEvents, hE, hS, hne]

theorem convert_output_get (known : Dict)
    (srpFunc erpFunc : Nat → String → Outcome) (sra_ids : List String)
    (batchSize maxWorkers : Nat) (delayBetweenBatches : Rat)
    (cache : Option Dict) (maxRetries : Nat) (retryDelay : Rat) (hasCb : Bool)
    (sid : String) :
    dget? (convert_sra_ids known srpFunc erpFunc sra_ids batchSize maxWorkers
        delayBetweenBatches cache maxRetries retryDelay hasCb).output sid =
      if sid ∈ sra_ids then
        some ((dget? (convertResults known srpFunc erpFunc sra_ids batchSize
          maxWorkers delayBetweenBatches cache maxRetries retryDelay hasCb)
            sid).getD emptyRes)
      else none :=
  foldl_dinsert_get _ sra_ids [] sid

theorem convert_output_nodup (known : Dict)
    (srpFunc erpFunc : Nat → String → Outcome) (sra_ids : List String)
    (batchSize maxWorkers : Nat) (delayBetweenBatches : Rat)
    (cache : Option Dict) (maxRetries : Nat) (retryDelay : Rat) (hasCb : Bool) :
    (dkeys (convert_sra_ids known srpFunc erpFunc sra_ids batchSize maxWorkers
      delayBetweenBatches cache maxRetries retryDelay hasCb).output).Nodup :=
  foldl_dinsert_nodup _ sra_ids [] (by simp [dkeys])

theorem convert_events_eq (known : Dict)
    (srpFunc erpFunc : Nat → String → Outcome) (sra_ids : List String)
    (batchSize maxWorkers : Nat) (delayBetweenBatches : Rat)
    (cache : Option Dict) (maxRetries : Nat) (retryDelay : Rat) (hasCb : Bool) :
    (convert_sra_ids known srpFunc erpFunc sra_ids batchSize maxWorkers
        delayBetweenBatches cache maxRetries retryDelay hasCb).events =
      convertEvents known srpFunc erpFunc sra_ids batchSize maxWorkers
        delayBetweenBatches cache maxRetries retryDelay hasCb := rfl

theorem convert_writtenCache_some (known : Dict)
    (srpFunc erpFunc : Nat → String → Outcome) (sra_ids : List String)
    (batchSize maxWorkers : Nat) (delayBetweenBatches : Rat) (c : Dict)
    (maxRetries : Nat) (retryDelay : Rat) (hasCb : Bool) :
    (convert_sra_ids known srpFunc erpFunc sra_ids batchSize maxWorkers
        delayBetweenBatches (some c) maxRetries retryDelay hasCb).writtenCache =
      some (dupdate c (convertResults known srpFunc erpFunc sra_ids batchSize
        maxWorkers delayBetweenBatches (some c) maxRetries retryDelay hasCb)) := rfl

theorem hit_not_in_lists (known : Dict) (cache : Option Dict)
    (sra_ids : List String) (sid : String) (v : Res)
    (hv : hitVal known cache sid = some v) :
    sid ∉ srpList known cache sra_ids ∧ sid ∉ erpList known cache sra_ids := by
  have hrem : sid ∉ remainingIds known cache sra_ids := by
    rw [remainingIds, splitCached_snd]
    intro hc
    have h2 := (List.mem_filter.mp hc).2
    rw [hv] at h2
    simp at h2
  constructor
  · rw [srpList]
    intro hc
    exact hrem (List.mem_filter.mp hc).1
  · rw [erpList]
    intro hc
    exact hrem (List.mem_filter.mp hc).1

theorem convert_no_calls (known : Dict)
    (srpFunc erpFunc : Nat → String → Outcome) (sra_ids : List String)
    (batchSize maxWorkers : Nat) (delayBetweenBatches : Rat)
    (cache : Option Dict) (maxRetries : Nat) (retryDelay : Rat) (hasCb : Bool)
    (sid : String) (hsrp : sid ∉ srpList known cache sra_ids)
    (herp : sid ∉ erpList known cache sra_ids) :
    (convert_sra_ids known srpFunc erpFunc sra_ids batchSize maxWorkers
      delayBetweenBatches cache maxRetries retryDelay hasCb).events.filter
        (isCallFor sid) = [] := by
  rw [convert_events_eq, List.filter_eq_nil_iff]
  intro e he hc
  cases e <;> simp only [isCallFor] at hc
  case netCall r s =>
    rw [decide_eq_true_eq] at hc
    subst hc
    rcases convertEvents_netCall known srpFunc erpFunc sra_ids batchSize
      maxWorkers delayBetweenBatches cache maxRetries retryDelay hasCb r s he
      with h | h
    · exact hsrp h
    · exact herp h
  all_goals simp at hc

/-! ### Claim theorems -/

/-- Resolution oracle whose every invocation raises an exception. -/
def oracleFail : Nat → String → Outcome := fun _ _ => Outcome.exn

/-- Resolution oracle that always succeeds with both fields populated. -/
def oracleOk : Nat → String → Outcome := fun _ _ => Outcome.ok ⟨"PRJNA1", "GSE1"⟩

/-- Resolution oracle that always returns a partial record: only
`bioproject_id` found, `geo_id` left empty. -/
def oraclePartial : Nat → String → Outcome := fun _ _ => Outcome.ok ⟨"PRJNA7", ""⟩

/-- The known-mappings table of the spec's test-case, seeding the module
global `KNOWN_MAPPINGS`. -/
def knownSeeded : Dict :=
  [("ERP127673", ⟨"PRJEB43688", "E-MTAB-10220"⟩),
   ("SRP324458", ⟨"PRJNA738600", "GSE178360"⟩)]

/-- C1: for every input list of accession strings, the mapping returned by
`convert_sra_ids` contains exactly one entry per original input element —
including duplicate elements and elements with unrecognized prefixes — and no
other entries: an id has an entry iff it occurs in the input, and the key
list of the returned dict has no duplicates. -/
theorem claim_C1 (known : Dict) (srpFunc erpFunc : Nat → String → Outcome)
    (sra_ids : List String) (batchSize maxWorkers : Nat)
    (delayBetweenBatches : Rat) (cache : Option Dict) (maxRetries : Nat)
    (retryDelay : Rat) (hasCb : Bool) :
    (∀ sid, (dget? (convert_sra_ids known srpFunc erpFunc sra_ids batchSize
        maxWorkers delayBetweenBatches cache maxRetries retryDelay
        hasCb).output sid).isSome ↔ sid ∈ sra_ids) ∧
      (dkeys (convert_sra_ids known srpFunc erpFunc sra_ids batchSize
        maxWorkers delayBetweenBatches cache maxRetries retryDelay
        hasCb).output).Nodup := by
  constructor
  · intro sid
    rw [convert_output_get]
    by_cases h : sid ∈ sra_ids <;> simp [h, dget?]
  · exact convert_output_nodup known srpFunc erpFunc sra_ids batchSize
      maxWorkers delayBetweenBatches cache maxRetries retryDelay hasCb

/-- Witness for C1 at a concrete input containing a duplicate and an
unrecognized prefix. -/
theorem claim_C1_witness :
    (∀ sid, (dget? (convert_sra_ids [] oracleFail oracleFail
        ["SRP1", "SRP1", "XYZ"] 5 2 2 none 1 5 false).output sid).isSome ↔
        sid ∈ ["SRP1", "SRP1", "XYZ"]) ∧
      (dkeys (convert_sra_ids [] oracleFail oracleFail
        ["SRP1", "SRP1", "XYZ"] 5 2 2 none 1 5 false).output).Nodup :=
  claim_C1 [] oracleFail oracleFail ["SRP1", "SRP1", "XYZ"] 5 2 2 none 1 5 false

/-- C2: every input id served by the known-mappings table — or, when a cache
file is supplied, by the loaded cache (known mappings take precedence,
lines 153-156) — is returned exactly as the stored record, and no resolution
call (hence no outbound network request) is ever made for it. -/
theorem claim_C2 (known : Dict) (srpFunc erpFunc : Nat → String → Outcome)
    (sra_ids : List String) (batchSize maxWorkers : Nat)
    (delayBetweenBatches : Rat) (cache : Option Dict) (maxRetries : Nat)
    (retryDelay : Rat) (hasCb : Bool) (sid : String) (v : Res)
    (hmem : sid ∈ sra_ids) (hv : hitVal known cache sid = some v) :
    dget? (convert_sra_ids known srpFunc erpFunc sra_ids batchSize maxWorkers
        delayBetweenBatches cache maxRetries retryDelay hasCb).output sid =
      some v ∧
    (convert_sra_ids known srpFunc erpFunc sra_ids batchSize maxWorkers
      delayBetweenBatches cache maxRetries retryDelay hasCb).events.filter
        (isCallFor sid) = [] := by
  constructor
  · rw [convert_output_get, if_pos hmem,
      convertResults_get_of_hit known srpFunc erpFunc sra_ids batchSize
        maxWorkers delayBetweenBatches cache maxRetries retryDelay hasCb sid v
        hmem hv]
    rfl
  · obtain ⟨h1, h2⟩ := hit_not_in_lists known cache sra_ids sid v hv
    exact convert_no_calls known srpFunc erpFunc sra_ids batchSize maxWorkers
      delayBetweenBatches cache maxRetries retryDelay hasCb sid h1 h2

/-- Witness for C2: the spec's seeded test-case
`["ERP127673", "SRP324458"]` yields exactly the two stored records, with an
empty event trace (zero network calls, in particular). -/
theorem claim_C2_witness :
    (dget? (convert_sra_ids knownSeeded oracleFail oracleFail
        ["ERP127673", "SRP324458"] 5 2 2 none 3 5 false).output "ERP127673" =
        some ⟨"PRJEB43688", "E-MTAB-10220"⟩ ∧
      (convert_sra_ids knownSeeded oracleFail oracleFail
        ["ERP127673", "SRP324458"] 5 2 2 none 3 5 false).events.filter
          (isCallFor "ERP127673") = []) ∧
    (dget? (convert_sra_ids knownSeeded oracleFail oracleFail
        ["ERP127673", "SRP324458"] 5 2 2 none 3 5 false).output "SRP324458" =
        some ⟨"PRJNA738600", "GSE178360"⟩ ∧
      (convert_sra_ids knownSeeded oracleFail oracleFail
        ["ERP127673", "SRP324458"] 5 2 2 none 3 5 false).events.filter
          (isCallFor "SRP324458") = []) ∧
    (convert_sra_ids knownSeeded oracleFail oracleFail
      ["ERP127673", "SRP324458"] 5 2 2 none 3 5 false).events = [] :=
  ⟨claim_C2 knownSeeded oracleFail oracleFail ["ERP127673", "SRP324458"]
      5 2 2 none 3 5 false "ERP127673" ⟨"PRJEB43688", "E-MTAB-10220"⟩
      (by decide) (by decide),
    claim_C2 knownSeeded oracleFail oracleFail ["ERP127673", "SRP324458"]
      5 2 2 none 3 5 false "SRP324458" ⟨"PRJNA738600", "GSE178360"⟩
      (by decide) (by decide),
    by decide⟩

/-- C3: when an ERP-prefixed input id is not served by known mappings or by
the seeded cache and every resolution attempt for it fails in all
`max_retries + 1` rounds, the run returns the all-empty record for it, writes
that empty record to the cache file, and any subsequent run seeded with the
written cache file makes no resolution call (hence no network request) for
that id. -/
theorem claim_C3 (known : Dict) (srpFunc erpFunc : Nat → String → Outcome)
    (sra_ids : List String) (batchSize maxWorkers : Nat)
    (delayBetweenBatches : Rat) (c : Dict) (maxRetries : Nat)
    (retryDelay : Rat) (hasCb : Bool)
    (srpFunc2 erpFunc2 : Nat → String → Outcome) (sra_ids2 : List String)
    (batchSize2 maxWorkers2 : Nat) (delayBetweenBatches2 : Rat)
    (maxRetries2 : Nat) (retryDelay2 : Rat) (hasCb2 : Bool) (sid : String)
    (hmem : sid ∈ sra_ids) (hpre : startsWith sid "ERP" = true)
    (hknown : dget? known sid = none) (hcache : dget? c sid = none)
    (hfail : ∀ r, r ≤ maxRetries → successful (erpFunc r sid) = false) :
    dget? (convert_sra_ids known srpFunc erpFunc sra_ids batchSize maxWorkers
        delayBetweenBatches (some c) maxRetries retryDelay hasCb).output sid =
      some emptyRes ∧
    ∃ wc, (convert_sra_ids known srpFunc erpFunc sra_ids batchSize maxWorkers
        delayBetweenBatches (some c) maxRetries retryDelay hasCb).writtenCache =
        some wc ∧
      dget? wc sid = some emptyRes ∧
      (convert_sra_ids known srpFunc2 erpFunc2 sra_ids2 batchSize2 maxWorkers2
        delayBetweenBatches2 (some wc) maxRetries2 retryDelay2
        hasCb2).events.filter (isCallFor sid) = [] := by
  have hv : hitVal known (some c) sid = none := by
    rw [hitVal, hknown, hcache]
  have hrem : sid ∈ remainingIds known (some c) sra_ids := by
    rw [remainingIds, splitCached_snd, List.mem_filter]
    exact ⟨(mem_dedupFirst _ _).mpr hmem, by rw [hv]; rfl⟩
  have herpmem : sid ∈ erpList known (some c) sra_ids := by
    rw [erpList, List.mem_filter]
    exact ⟨hrem, hpre⟩
  have hres : dget? (convertResults known srpFunc erpFunc sra_ids batchSize
      maxWorkers delayBetweenBatches (some c) maxRetries retryDelay hasCb)
      sid = some emptyRes := by
    rw [convertResults_get_erp known srpFunc erpFunc sra_ids batchSize
      maxWorkers delayBetweenBatches (some c) maxRetries retryDelay hasCb sid
      hmem hv hpre]
    exact pib_results_get_allFail erpFunc _ batchSize maxWorkers
      delayBetweenBatches maxRetries retryDelay hasCb sid herpmem hfail
  refine ⟨?_, ?_⟩
  · rw [convert_output_get, if_pos hmem, hres]
    rfl
  · refine ⟨dupdate c (convertResults known srpFunc erpFunc sra_ids batchSize
      maxWorkers delayBetweenBatches (some c) maxRetries retryDelay hasCb),
      convert_writtenCache_some known srpFunc erpFunc sra_ids batchSize
        maxWorkers delayBetweenBatches c maxRetries retryDelay hasCb, ?_, ?_⟩
    · exact dget?_dupdate_of_some _ _ _ _
        (convertResults_nodup known srpFunc erpFunc sra_ids batchSize
          maxWorkers delayBetweenBatches (some c) maxRetries retryDelay hasCb)
        hres
    · have hv2 : hitVal known
          (some (dupdate c (convertResults known srpFunc erpFunc sra_ids
            batchSize maxWorkers delayBetweenBatches (some c) maxRetries
            retryDelay hasCb))) sid = some emptyRes := by
        rw [hitVal, hknown]
        exact dget?_dupdate_of_some _ _ _ _
          (convertResults_nodup known srpFunc erpFunc sra_ids batchSize
            maxWorkers delayBetweenBatches (some c) maxRetries retryDelay hasCb)
          hres
      obtain ⟨h1, h2⟩ := hit_not_in_lists known _ sra_ids2 sid emptyRes hv2
      exact convert_no_calls known srpFunc2 erpFunc2 sra_ids2 batchSize2
        maxWorkers2 delayBetweenBatches2 _ maxRetries2 retryDelay2 hasCb2 sid
        h1 h2

/-- Witness for C3: `"ERP999999"` with `max_retries = 2`, an always-failing
resolution oracle, an empty seeded cache, and the spec's default remaining
configuration. -/
theorem claim_C3_witness :
    dget? (convert_sra_ids [] oracleFail oracleFail ["ERP999999"] 5 2 2
        (some []) 2 5 false).output "ERP999999" = some emptyRes ∧
    ∃ wc, (convert_sra_ids [] oracleFail oracleFail ["ERP999999"] 5 2 2
        (some []) 2 5 false).writtenCache = some wc ∧
      dget? wc "ERP999999" = some emptyRes ∧
      (convert_sra_ids [] oracleFail oracleFail ["ERP999999"] 5 2 2
        (some wc) 2 5 false).events.filter (isCallFor "ERP999999") = [] :=
  claim_C3 [] oracleFail oracleFail ["ERP999999"] 5 2 2 [] 2 5 false
    oracleFail oracleFail ["ERP999999"] 5 2 2 2 5 false "ERP999999"
    (by decide) (by decide) rfl rfl (fun r _ => rfl)

/-- C4: in `process_in_batches`, the resolution function runs in at most
`1 + max_retries` rounds (every recorded call carries a round number at most
`max_retries`); the ids called in round `r + 1` are exactly ids that were
called and failed in round `r`; every retry sleep is the constant
`retry_delay`, and the retry sleep does occur whenever any retry round runs;
every input id has an entry in the returned map, and an id that fails in all
rounds receives the explicit empty record rather than being absent. -/
theorem claim_C4 (pf : Nat → String → Outcome) (ids : List String)
    (batchSize maxWorkers : Nat) (delayBetweenBatches : Rat) (maxRetries : Nat)
    (retryDelay : Rat) (hasCb : Bool) :
    (∀ r sid, Event.netCall r sid ∈
        (process_in_batches pf ids batchSize maxWorkers delayBetweenBatches
          maxRetries retryDelay hasCb).events → r ≤ maxRetries) ∧
    (∀ r sid, Event.netCall (r + 1) sid ∈
        (process_in_batches pf ids batchSize maxWorkers delayBetweenBatches
          maxRetries retryDelay hasCb).events →
      Event.netCall r sid ∈
        (process_in_batches pf ids batchSize maxWorkers delayBetweenBatches
          maxRetries retryDelay hasCb).events ∧
        successful (pf r sid) = false) ∧
    (∀ d, Event.sleepRetry d ∈
        (process_in_batches pf ids batchSize maxWorkers delayBetweenBatches
          maxRetries retryDelay hasCb).events → d = retryDelay) ∧
    (∀ r sid, 1 ≤ r → Event.netCall r sid ∈
        (process_in_batches pf ids batchSize maxWorkers delayBetweenBatches
          maxRetries retryDelay hasCb).events →
      Event.sleepRetry retryDelay ∈
        (process_in_batches pf ids batchSize maxWorkers delayBetweenBatches
          maxRetries retryDelay hasCb).events) ∧
    (∀ sid, sid ∈ ids →
      (dget? (process_in_batches pf ids batchSize maxWorkers
        delayBetweenBatches maxRetries retryDelay hasCb).results sid).isSome) ∧
    (∀ sid, sid ∈ ids →
      (∀ r, r ≤ maxRetries → successful (pf r sid) = false) →
      dget? (process_in_batches pf ids batchSize maxWorkers
        delayBetweenBatches maxRetries retryDelay hasCb).results sid =
          some emptyRes) := by
  refine ⟨?_, ?_, ?_, ?_, ?_, ?_⟩
  · intro r sid h
    exact ((pib_events_netCall pf ids batchSize maxWorkers delayBetweenBatches
      maxRetries retryDelay hasCb r sid).mp h).1
  · intro r sid h
    obtain ⟨h1, h2⟩ := (pib_events_netCall pf ids batchSize maxWorkers
      delayBetweenBatches maxRetries retryDelay hasCb (r + 1) sid).mp h
    rw [iterFail_peel, Nat.zero_add, List.mem_filter] at h2
    have hfail : successful (pf r sid) = false := by
      have := h2.2
      simp only [Bool.not_eq_eq_eq_not, Bool.not_true] at this
      simpa using this
    refine ⟨(pib_events_netCall pf ids batchSize maxWorkers delayBetweenBatches
      maxRetries retryDelay hasCb r sid).mpr ⟨by omega, h2.1⟩, hfail⟩
  · intro d h
    exact pib_events_sleepRetry pf ids batchSize maxWorkers delayBetweenBatches
      maxRetries retryDelay hasCb d h
  · intro r sid h1 h
    exact pib_events_sleepRetry_of_call pf ids batchSize maxWorkers
      delayBetweenBatches maxRetries retryDelay hasCb r sid h1 h
  · intro sid hmem
    exact pib_results_get_isSome pf ids batchSize maxWorkers
      delayBetweenBatches maxRetries retryDelay hasCb sid hmem
  · intro sid hmem hfail
    exact pib_results_get_allFail pf ids batchSize maxWorkers
      delayBetweenBatches maxRetries retryDelay hasCb sid hmem hfail

/-- Witness for C4: an always-failing oracle on one id with
`max_retries = 2` — the id ends with the explicit empty record, and the
events of the run are exactly three rounds of one call each separated by the
constant retry sleeps. -/
theorem claim_C4_witness :
    dget? (process_in_batches oracleFail ["ERP9"] 5 2 2 2 5 true).results
        "ERP9" = some emptyRes ∧
    (∀ r sid, Event.netCall r sid ∈
        (process_in_batches oracleFail ["ERP9"] 5 2 2 2 5 true).events →
        r ≤ 2) ∧
    (process_in_batches oracleFail ["ERP9"] 5 2 2 2 5 true).events =
      [Event.netCall 0 "ERP9", Event.sleepRetry 5, Event.netCall 1 "ERP9",
        Event.sleepRetry 5, Event.netCall 2 "ERP9"] :=
  ⟨(claim_C4 oracleFail ["ERP9"] 5 2 2 2 5 true).2.2.2.2.2 "ERP9" (by decide)
      (fun r _ => rfl),
    (claim_C4 oracleFail ["ERP9"] 5 2 2 2 5 true).1,
    by decide⟩

/-- Counterexample to C5: input `["XYZ123"]` (unrecognized prefix) with a
seeded empty cache file yields the all-empty record in the output, yet the
cache file written at the end is still the empty dict — the empty record for
the unrecognized id is NOT written to the cache (only ids present in the
internal `results` dict are written, and unrecognized ids never enter it). -/
theorem claim_C5_counterexample :
    dget? (convert_sra_ids [] oracleFail oracleFail ["XYZ123"] 5 2 2
        (some []) 3 5 false).output "XYZ123" = some emptyRes ∧
    (convert_sra_ids [] oracleFail oracleFail ["XYZ123"] 5 2 2
      (some []) 3 5 false).writtenCache = some [] := by
  decide

/-- C5 as amended: for every input id that is served by the known
mappings/cache or whose prefix is recognized (SRP or ERP), the record it
resolves to in the run — including the all-empty record when resolution
fails — is written to the cache file at the end of the run; ids with
unrecognized prefixes are the exception and are never written. -/
theorem claim_C5_amended (known : Dict)
    (srpFunc erpFunc : Nat → String → Outcome) (sra_ids : List String)
    (batchSize maxWorkers : Nat) (delayBetweenBatches : Rat) (c : Dict)
    (maxRetries : Nat) (retryDelay : Rat) (hasCb : Bool) (sid : String)
    (hmem : sid ∈ sra_ids)
    (hrec : startsWith sid "SRP" = true ∨ startsWith sid "ERP" = true ∨
      (hitVal known (some c) sid).isSome) :
    ∃ v wc,
      dget? (convert_sra_ids known srpFunc erpFunc sra_ids batchSize maxWorkers
        delayBetweenBatches (some c) maxRetries retryDelay hasCb).output sid =
        some v ∧
      (convert_sra_ids known srpFunc erpFunc sra_ids batchSize maxWorkers
        delayBetweenBatches (some c) maxRetries retryDelay hasCb).writtenCache =
        some wc ∧
      dget? wc sid = some v := by
  have hnd := convertResults_nodup known srpFunc erpFunc sra_ids batchSize
    maxWorkers delayBetweenBatches (some c) maxRetries retryDelay hasCb
  have hsome : ∃ v, dget? (convertResults known srpFunc erpFunc sra_ids
      batchSize maxWorkers delayBetweenBatches (some c) maxRetries retryDelay
      hasCb) sid = some v := by
    cases hv : hitVal known (some c) sid with
    | some v =>
      exact ⟨v, convertResults_get_of_hit known srpFunc erpFunc sra_ids
        batchSize maxWorkers delayBetweenBatches (some c) maxRetries
        retryDelay hasCb sid v hmem hv⟩
    | none =>
      rcases hrec with hpre | hpre | hpre
      · rw [convertResults_get_srp known srpFunc erpFunc sra_ids batchSize
          maxWorkers delayBetweenBatches (some c) maxRetries retryDelay hasCb
          sid hmem hv hpre]
        have hsrp : sid ∈ srpList known (some c) sra_ids := by
          rw [srpList, List.mem_filter]
          refine ⟨?_, hpre⟩
          rw [remainingIds, splitCached_snd, List.mem_filter]
          exact ⟨(mem_dedupFirst _ _).mpr hmem, by rw [hv]; rfl⟩
        have := pib_results_get_isSome srpFunc (srpList known (some c) sra_ids)
          batchSize maxWorkers delayBetweenBatches maxRetries retryDelay hasCb
          sid hsrp
        exact Option.isSome_iff_exists.mp this
      · rw [convertResults_get_erp known srpFunc erpFunc sra_ids batchSize
          maxWorkers delayBetweenBatches (some c) maxRetries retryDelay hasCb
          sid hmem hv hpre]
        have herp : sid ∈ erpList known (some c) sra_ids := by
          rw [erpList, List.mem_filter]
          refine ⟨?_, hpre⟩
          rw [remainingIds, splitCached_snd, List.mem_filter]
          exact ⟨(mem_dedupFirst _ _).mpr hmem, by rw [hv]; rfl⟩
        have := pib_results_get_isSome erpFunc (erpList known (some c) sra_ids)
          batchSize maxWorkers delayBetweenBatches maxRetries retryDelay hasCb
          sid herp
        exact Option.isSome_iff_exists.mp this
      · rw [hv] at hpre
        simp at hpre
  obtain ⟨v, hv⟩ := hsome
  refine ⟨v, _, ?_, convert_writtenCache_some known srpFunc erpFunc sra_ids
    batchSize maxWorkers delayBetweenBatches c maxRetries retryDelay hasCb, ?_⟩
  · rw [convert_output_get, if_pos hmem, hv]
    rfl
  · exact dget?_dupdate_of_some _ _ _ _ hnd hv

/-- Witness for C5 as amended: a failed ERP id has its all-empty record
written to the cache. -/
theorem claim_C5_amended_witness :
    ∃ v wc,
      dget? (convert_sra_ids [] oracleFail oracleFail ["ERP999999"] 5 2 2
        (some []) 2 5 false).output "ERP999999" = some v ∧
      (convert_sra_ids [] oracleFail oracleFail ["ERP999999"] 5 2 2
        (some []) 2 5 false).writtenCache = some wc ∧
      dget? wc "ERP999999" = some v :=
  claim_C5_amended [] oracleFail oracleFail ["ERP999999"] 5 2 2 [] 2 5 false
    "ERP999999" (by decide) (Or.inr (Or.inl (by decide)))

/-- C6: an input id with an unrecognized prefix (neither SRP nor ERP) that is
not served by known mappings or the cache yields the all-empty record, is
subject to no resolution call (hence no lookup and no retry), and the
unknown-format warning is logged with that id in it.  The embedded code path
for such ids is total — no exception can arise from them (they are filtered
out before any lookup, lines 167-173). -/
theorem claim_C6 (known : Dict) (srpFunc erpFunc : Nat → String → Outcome)
    (sra_ids : List String) (batchSize maxWorkers : Nat)
    (delayBetweenBatches : Rat) (cache : Option Dict) (maxRetries : Nat)
    (retryDelay : Rat) (hasCb : Bool) (sid : String)
    (hmem : sid ∈ sra_ids)
    (hpre1 : startsWith sid "SRP" = false)
    (hpre2 : startsWith sid "ERP" = false)
    (hv : hitVal known cache sid = none) :
    dget? (convert_sra_ids known srpFunc erpFunc sra_ids batchSize maxWorkers
        delayBetweenBatches cache maxRetries retryDelay hasCb).output sid =
      some emptyRes ∧
    (convert_sra_ids known srpFunc erpFunc sra_ids batchSize maxWorkers
      delayBetweenBatches cache maxRetries retryDelay hasCb).events.filter
        (isCallFor sid) = [] ∧
    (∃ l, Event.warnUnknown l ∈
        (convert_sra_ids known srpFunc erpFunc sra_ids batchSize maxWorkers
          delayBetweenBatches cache maxRetries retryDelay hasCb).events ∧
      sid ∈ l) := by
  have hsrp : sid ∉ srpList known cache sra_ids := by
    rw [srpList, List.mem_filter]
    intro hc
    rw [hpre1] at hc
    exact absurd hc.2 (by simp)
  have herp : sid ∉ erpList known cache sra_ids := by
    rw [erpList, List.mem_filter]
    intro hc
    rw [hpre2] at hc
    exact absurd hc.2 (by simp)
  have hoth : sid ∈ otherList known cache sra_ids := by
    rw [otherList, List.mem_filter]
    refine ⟨?_, by rw [hpre1, hpre2]; rfl⟩
    rw [remainingIds, splitCached_snd, List.mem_filter]
    exact ⟨(mem_dedupFirst _ _).mpr hmem, by rw [hv]; rfl⟩
  refine ⟨?_, ?_, ?_⟩
  · rw [convert_output_get, if_pos hmem,
      convertResults_get_other known srpFunc erpFunc sra_ids batchSize
        maxWorkers delayBetweenBatches cache maxRetries retryDelay hasCb sid
        hv hpre1 hpre2]
    rfl
  · exact convert_no_calls known srpFunc erpFunc sra_ids batchSize maxWorkers
      delayBetweenBatches cache maxRetries retryDelay hasCb sid hsrp herp
  · refine ⟨otherList known cache sra_ids, ?_, hoth⟩
    rw [convert_events_eq]
    exact convertEvents_warn known srpFunc erpFunc sra_ids batchSize maxWorkers
      delayBetweenBatches cache maxRetries retryDelay hasCb sid hoth

/-- Witness for C6: `"XYZ123"`. -/
theorem claim_C6_witness :
    dget? (convert_sra_ids [] oracleFail oracleFail ["XYZ123"] 5 2 2 none 3 5
        false).output "XYZ123" = some emptyRes ∧
    (convert_sra_ids [] oracleFail oracleFail ["XYZ123"] 5 2 2 none 3 5
      false).events.filter (isCallFor "XYZ123") = [] ∧
    (∃ l, Event.warnUnknown l ∈
        (convert_sra_ids [] oracleFail oracleFail ["XYZ123"] 5 2 2 none 3 5
          false).events ∧
      "XYZ123" ∈ l) :=
  claim_C6 [] oracleFail oracleFail ["XYZ123"] 5 2 2 none 3 5 false "XYZ123"
    (by decide) (by decide) (by decide) rfl

/-- Counterexample to C7: with two known-mapping hits and one SRP id that
resolves in the first batch, the progress callback receives the sequence
`[2, 1]` — the count reported after the cache/known-mapping short-circuit is
2, but `process_in_batches` restarts its own `total_processed` counter at 0,
so the next reported value drops to 1.  The sequence of processed-count
values across one `convert_sra_ids` call is therefore not monotonically
non-decreasing. -/
theorem claim_C7_counterexample :
    progressValues (convert_sra_ids
        [("K1", ⟨"PRJNA1", "GSE1"⟩), ("K2", ⟨"PRJNA2", "GSE2"⟩)]
        oracleOk oracleFail ["K1", "K2", "SRP1"] 5 2 2 none 0 5 true).events =
      [2, 1] ∧
    nondecreasing (progressValues (convert_sra_ids
      [("K1", ⟨"PRJNA1", "GSE1"⟩), ("K2", ⟨"PRJNA2", "GSE2"⟩)]
      oracleOk oracleFail ["K1", "K2", "SRP1"] 5 2 2 none 0 5 true).events) =
      false := by
  decide

/-- C7 as amended: within one `process_in_batches` call the sequence of
processed-count values passed to the progress callback is monotonically
non-decreasing (the callback runs after each batch that resolves at least one
id); across a whole `convert_sra_ids` call the counter is reset for each of
the two `process_in_batches` phases and does not include the
cache/known-mapping short-circuit count, so the combined sequence can
decrease. -/
theorem claim_C7_amended (pf : Nat → String → Outcome) (ids : List String)
    (batchSize maxWorkers : Nat) (delayBetweenBatches : Rat) (maxRetries : Nat)
    (retryDelay : Rat) (hasCb : Bool) :
    nondecreasing (progressValues
      (process_in_batches pf ids batchSize maxWorkers delayBetweenBatches
        maxRetries retryDelay hasCb).events) = true :=
  pib_progress_nondecreasing pf ids batchSize maxWorkers delayBetweenBatches
    maxRetries retryDelay hasCb

theorem retryLoop_allFail (key : String) (oracle : Nat → Option (List String)) :
    ∀ (n i : Nat), (∀ j, j < n → attemptOK key (oracle (i + j)) = false) →
      retryLoop key oracle n i =
        ((List.range n).map (fun j => (2 : Rat) ^ (i + j)),
          RetryResult.exitFatal) := by
  intro n
  induction n with
  | zero => intro i _; rfl
  | succ n ih =>
    intro i h
    have h0 : attemptOK key (oracle i) = false := by
      have := h 0 (by omega)
      simpa using this
    have hrest : ∀ j, j < n → attemptOK key (oracle (i + 1 + j)) = false := by
      intro j hj
      have := h (j + 1) (by omega)
      rwa [show i + (j + 1) = i + 1 + j by omega] at this
    have hl : (2 : Rat) ^ i ::
        (List.range n).map (fun j => (2 : Rat) ^ (i + 1 + j)) =
        (List.range (n + 1)).map (fun j => (2 : Rat) ^ (i + j)) := by
      rw [List.range_succ_eq_map, List.map_cons, List.map_map]
      congr 1
      apply List.map_congr_left
      intro a ha
      simp only [Function.comp]
      congr 1
      omega
    simp only [retryLoop, h0, Bool.false_eq_true, if_false]
    rw [ih (i + 1) hrest]
    show ((2 : Rat) ^ i ::
      (List.range n).map (fun j => (2 : Rat) ^ (i + 1 + j)),
      RetryResult.exitFatal) = _
    rw [hl]

/-- Counterexample to C8: in `_retry_response`, when every one of the
`max_retries = 10` attempts fails, the function does not soft-fail the one
attempt — it terminates the whole process (`sys.exit(1)`, modelled by
`RetryResult.exitFatal`) after sleeping `2 ^ i` seconds before each of the
ten attempts. -/
theorem claim_C8_counterexample :
    retry_response "gsm" (fun _ => none) 10 =
      ([1, 2, 4, 8, 16, 32, 64, 128, 256, 512], RetryResult.exitFatal) := by
  decide

/-- C8 as amended: within a single request attempt of `_retry_response`,
transient errors (JSON decode failures, missing key, embedded error) are
retried with exponential backoff — a sleep of `2 ^ attempt` seconds precedes
each attempt — capped at `max_retries` attempts; when all attempts fail the
function exits the whole process with status 1 (fatal), not a soft failure
of that method.  (In `sra_id_converter.py`, by contrast, malformed bodies
are caught per method and the chain continues.) -/
theorem claim_C8_amended (key : String) (oracle : Nat → Option (List String))
    (maxRetries : Nat)
    (hfail : ∀ i, i < maxRetries → attemptOK key (oracle i) = false) :
    retry_response key oracle maxRetries =
      ((List.range maxRetries).map (fun i => (2 : Rat) ^ i),
        RetryResult.exitFatal) := by
  show retryLoop key oracle maxRetries 0 = _
  rw [retryLoop_allFail key oracle maxRetries 0
    (fun j hj => by simpa using hfail j hj)]
  refine congrArg (fun l => (l, RetryResult.exitFatal)) ?_
  apply List.map_congr_left
  intro a ha
  rw [Nat.zero_add]

/-- Witness for C8 as amended: three all-failing attempts sleep 1, 2 and 4
seconds and end in the fatal process exit. -/
theorem claim_C8_amended_witness :
    retry_response "x" (fun _ => none) 3 = ([1, 2, 4], RetryResult.exitFatal) := by
  rw [claim_C8_amended "x" (fun _ => none) 3 (fun i _ => rfl)]
  decide

/-- C9: running `convert_sra_ids` a second time with the same input list and
the same known-mappings table, seeding the second run's cache file with what
the first run wrote, yields an output mapping identical to the first run's —
whatever the second run's resolvers and batching configuration do, since
every recognized id is answered from the written cache and every
unrecognized id deterministically maps to the empty record. -/
theorem claim_C9 (known : Dict) (srpFunc1 erpFunc1 srpFunc2 erpFunc2 :
    Nat → String → Outcome) (sra_ids : List String) (batchSize maxWorkers : Nat)
    (delayBetweenBatches : Rat) (c : Dict) (maxRetries : Nat) (retryDelay : Rat)
    (hasCb : Bool) (batchSize2 maxWorkers2 : Nat) (delayBetweenBatches2 : Rat)
    (maxRetries2 : Nat) (retryDelay2 : Rat) (hasCb2 : Bool) (wc : Dict)
    (hwc : (convert_sra_ids known srpFunc1 erpFunc1 sra_ids batchSize
      maxWorkers delayBetweenBatches (some c) maxRetries retryDelay
      hasCb).writtenCache = some wc) :
    (convert_sra_ids known srpFunc2 erpFunc2 sra_ids batchSize2 maxWorkers2
        delayBetweenBatches2 (some wc) maxRetries2 retryDelay2 hasCb2).output =
      (convert_sra_ids known srpFunc1 erpFunc1 sra_ids batchSize maxWorkers
        delayBetweenBatches (some c) maxRetries retryDelay hasCb).output := by
  rw [convert_writtenCache_some] at hwc
  have hwc2 : wc = dupdate c (convertResults known srpFunc1 erpFunc1 sra_ids
      batchSize maxWorkers delayBetweenBatches (some c) maxRetries retryDelay
      hasCb) := (Option.some.inj hwc).symm
  have hnd1 := convertResults_nodup known srpFunc1 erpFunc1 sra_ids batchSize
    maxWorkers delayBetweenBatches (some c) maxRetries retryDelay hasCb
  apply foldl_dinsert_congr
  intro sid hmem
  cases hk : dget? known sid with
  | some v =>
    have hv1 : hitVal known (some c) sid = some v := by rw [hitVal, hk]
    have hv2 : hitVal known (some wc) sid = some v := by rw [hitVal, hk]
    rw [convertResults_get_of_hit known srpFunc1 erpFunc1 sra_ids batchSize
        maxWorkers delayBetweenBatches (some c) maxRetries retryDelay hasCb
        sid v hmem hv1,
      convertResults_get_of_hit known srpFunc2 erpFunc2 sra_ids batchSize2
        maxWorkers2 delayBetweenBatches2 (some wc) maxRetries2 retryDelay2
        hasCb2 sid v hmem hv2]
  | none =>
    cases hc : dget? c sid with
    | some v =>
      have hv1 : hitVal known (some c) sid = some v := by rw [hitVal, hk, hc]
      have hr1 : dget? (convertResults known srpFunc1 erpFunc1 sra_ids
          batchSize maxWorkers delayBetweenBatches (some c) maxRetries
          retryDelay hasCb) sid = some v :=
        convertResults_get_of_hit known srpFunc1 erpFunc1 sra_ids batchSize
          maxWorkers delayBetweenBatches (some c) maxRetries retryDelay hasCb
          sid v hmem hv1
      have hv2 : hitVal known (some wc) sid = some v := by
        rw [hitVal, hk, hwc2, dget?_dupdate_of_some _ _ _ _ hnd1 hr1]
      rw [hr1, convertResults_get_of_hit known srpFunc2 erpFunc2 sra_ids
        batchSize2 maxWorkers2 delayBetweenBatches2 (some wc) maxRetries2
        retryDelay2 hasCb2 sid v hmem hv2]
    | none =>
      have hv1 : hitVal known (some c) sid = none := by rw [hitVal, hk, hc]
      by_cases hS : startsWith sid "SRP" = true
      · have hsrp : sid ∈ srpList known (some c) sra_ids := by
          rw [srpList, List.mem_filter]
          refine ⟨?_, hS⟩
          rw [remainingIds, splitCached_snd, List.mem_filter]
          exact ⟨(mem_dedupFirst _ _).mpr hmem, by rw [hv1]; rfl⟩
        obtain ⟨v1, hv1s⟩ := Option.isSome_iff_exists.mp
          (pib_results_get_isSome srpFunc1 (srpList known (some c) sra_ids)
            batchSize maxWorkers delayBetweenBatches maxRetries retryDelay
            hasCb sid hsrp)
        have hr1 : dget? (convertResults known srpFunc1 erpFunc1 sra_ids
            batchSize maxWorkers delayBetweenBatches (some c) maxRetries
            retryDelay hasCb) sid = some v1 := by
          rw [convertResults_get_srp known srpFunc1 erpFunc1 sra_ids batchSize
            maxWorkers delayBetweenBatches (some c) maxRetries retryDelay
            hasCb sid hmem hv1 hS]
          exact hv1s
        have hv2 : hitVal known (some wc) sid = some v1 := by
          rw [hitVal, hk, hwc2, dget?_dupdate_of_some _ _ _ _ hnd1 hr1]
        rw [hr1, convertResults_get_of_hit known srpFunc2 erpFunc2 sra_ids
          batchSize2 maxWorkers2 delayBetweenBatches2 (some wc) maxRetries2
          retryDelay2 hasCb2 sid v1 hmem hv2]
      · by_cases hE : startsWith sid "ERP" = true
        · have herp : sid ∈ erpList known (some c) sra_ids := by
            rw [erpList, List.mem_filter]
            refine ⟨?_, hE⟩
            rw [remainingIds, splitCached_snd, List.mem_filter]
            exact ⟨(mem_dedupFirst _ _).mpr hmem, by rw [hv1]; rfl⟩
          obtain ⟨v1, hv1s⟩ := Option.isSome_iff_exists.mp
            (pib_results_get_isSome erpFunc1 (erpList known (some c) sra_ids)
              batchSize maxWorkers delayBetweenBatches maxRetries retryDelay
              hasCb sid herp)
          have hr1 : dget? (convertResults known srpFunc1 erpFunc1 sra_ids
              batchSize maxWorkers delayBetweenBatches (some c) maxRetries
              retryDelay hasCb) sid = some v1 := by
            rw [convertResults_get_erp known srpFunc1 erpFunc1 sra_ids
              batchSize maxWorkers delayBetweenBatches (some c) maxRetries
              retryDelay hasCb sid hmem hv1 hE]
            exact hv1s
          have hv2 : hitVal known (some wc) sid = some v1 := by
            rw [hitVal, hk, hwc2, dget?_dupdate_of_some _ _ _ _ hnd1 hr1]
          rw [hr1, convertResults_get_of_hit known srpFunc2 erpFunc2 sra_ids
            batchSize2 maxWorkers2 delayBetweenBatches2 (some wc) maxRetries2
            retryDelay2 hasCb2 sid v1 hmem hv2]
        · have hS2 : startsWith sid "SRP" = false := by
            cases hq : startsWith sid "SRP"
            · rfl
            · exact absurd hq hS
          have hE2 : startsWith sid "ERP" = false := by
            cases hq : startsWith sid "ERP"
            · rfl
            · exact absurd hq hE
          have hr1 : dget? (convertResults known srpFunc1 erpFunc1 sra_ids
              batchSize maxWorkers delayBetweenBatches (some c) maxRetries
              retryDelay hasCb) sid = none :=
            convertResults_get_other known srpFunc1 erpFunc1 sra_ids batchSize
              maxWorkers delayBetweenBatches (some c) maxRetries retryDelay
              hasCb sid hv1 hS2 hE2
          have hv2 : hitVal known (some wc) sid = none := by
            rw [hitVal, hk, hwc2, dget?_dupdate_of_none _ _ _ hr1, hc]
          have hr2 : dget? (convertResults known srpFunc2 erpFunc2 sra_ids
              batchSize2 maxWorkers2 delayBetweenBatches2 (some wc) maxRetries2
              retryDelay2 hasCb2) sid = none :=
            convertResults_get_other known srpFunc2 erpFunc2 sra_ids batchSize2
              maxWorkers2 delayBetweenBatches2 (some wc) maxRetries2 retryDelay2
              hasCb2 sid hv2 hS2 hE2
          rw [hr1, hr2]

/-- Witness for C9: one SRP id resolved in the first run; the second run,
seeded with the written cache, returns the identical output. -/
theorem claim_C9_witness :
    (convert_sra_ids [] oracleFail oracleFail ["SRP9"] 5 2 2
        (some [("SRP9", ⟨"PRJNA1", "GSE1"⟩)]) 1 5 false).output =
      (convert_sra_ids [] oracleOk oracleFail ["SRP9"] 5 2 2 (some []) 1 5
        false).output :=
  claim_C9 [] oracleOk oracleFail oracleFail oracleFail ["SRP9"] 5 2 2 [] 1 5
    false 5 2 2 1 5 false [("SRP9", ⟨"PRJNA1", "GSE1"⟩)] (by decide)

/-- C10: in `process_in_batches` a per-id result counts as a success exactly
when at least one of its two fields is non-empty.  A partial first-round
result with one field found is accepted immediately: it is stored in the
returned map exactly as returned (the empty field kept as-is) and the id is
never retried in any later round.  Conversely a first-round result with both
fields empty puts the id in the failure set: it is retried in round 1
whenever `max_retries ≥ 1`. -/
theorem claim_C10 (pf : Nat → String → Outcome) (ids : List String)
    (batchSize maxWorkers : Nat) (delayBetweenBatches : Rat) (maxRetries : Nat)
    (retryDelay : Rat) (hasCb : Bool) (sid : String) (res : Res)
    (hmem : sid ∈ ids) (hok : pf 0 sid = Outcome.ok res) :
    ((res.bioproject_id ≠ "" ∨ res.geo_id ≠ "") →
      dget? (process_in_batches pf ids batchSize maxWorkers
          delayBetweenBatches maxRetries retryDelay hasCb).results sid =
        some res ∧
      ∀ r, Event.netCall (r + 1) sid ∉
        (process_in_batches pf ids batchSize maxWorkers delayBetweenBatches
          maxRetries retryDelay hasCb).events) ∧
    (res.bioproject_id = "" ∧ res.geo_id = "" → 1 ≤ maxRetries →
      Event.netCall 1 sid ∈
        (process_in_batches pf ids batchSize maxWorkers delayBetweenBatches
          maxRetries retryDelay hasCb).events) := by
  constructor
  · intro hne
    have hs : successful (pf 0 sid) = true := by
      rw [hok]
      simpa [successful] using hne
    constructor
    · have h2 := pib_results_get_of_first_success pf ids batchSize maxWorkers
        delayBetweenBatches maxRetries retryDelay hasCb sid hmem hs
      rw [hok] at h2
      exact h2
    · intro r hc
      have h2 := ((pib_events_netCall pf ids batchSize maxWorkers
        delayBetweenBatches maxRetries retryDelay hasCb (r + 1) sid).mp hc).2
      have h3 := iterFail_anti pf 0 (dedupFirst ids) 1 (r + 1) (by omega) sid h2
      rw [iterFail_peel, Nat.zero_add, List.mem_filter] at h3
      have h4 := h3.2
      rw [hs] at h4
      simp at h4
  · intro hempty hmr
    have hs : successful (pf 0 sid) = false := by
      rw [hok]
      simp [successful, hempty.1, hempty.2]
    apply (pib_events_netCall pf ids batchSize maxWorkers delayBetweenBatches
      maxRetries retryDelay hasCb 1 sid).mpr
    refine ⟨hmr, ?_⟩
    rw [show (1 : Nat) = 0 + 1 from rfl, iterFail_peel, Nat.zero_add,
      List.mem_filter]
    refine ⟨(mem_dedupFirst _ _).mpr hmem, by rw [hs]; rfl⟩

/-- Witness for C10: a partial record with only `bioproject_id` found is
stored as-is and the id is not retried. -/
theorem claim_C10_witness :
    dget? (process_in_batches oraclePartial ["SRP7"] 5 2 2 1 5
        false).results "SRP7" = some ⟨"PRJNA7", ""⟩ ∧
    (∀ r, Event.netCall (r + 1) "SRP7" ∉
      (process_in_batches oraclePartial ["SRP7"] 5 2 2 1 5 false).events) :=
  (claim_C10 oraclePartial ["SRP7"] 5 2 2 1 5 false "SRP7" ⟨"PRJNA7", ""⟩
    (by decide) rfl).1 (Or.inl (by decide))
